import Mathlib

/-!
Verification of the OER C source code generator (`asn1tools/c_source/oer.py`).

The generator emits C code in two layers:

* a fixed catalog of runtime helper functions, embedded in the Python file as
  string constants (`ENCODER_APPEND_BYTES`, `DECODER_READ_LENGTH_DETERMINANT`,
  ...).  We shallowly embed the semantics of those C functions: an
  `encoder_t`/`decoder_t` state is a byte buffer with a cursor (`pos`) and a
  capacity (`size`), both `ssize_t` in C, hence `Int` here; bytes are `Nat`
  values below 256.  The encoder buffer field models the initialized prefix
  `buf_p[0 .. pos)` of the output buffer (each successful `memcpy` in the C
  code writes at the cursor, i.e. appends to that prefix).
* per-type generated instruction sequences (`format_sequence_of_inner`,
  `format_sequence_inner`, `format_choice_inner`, ...).  For each claim we
  embed the instruction sequence the generator emits for the relevant type
  shape, as a Lean function over the runtime-helper semantics.

The generation-time machinery itself (`sort_user_types_by_used_user_types`,
`generate_helpers`, the `format_real` / choice-tag error paths) is embedded
directly as Lean functions over lists and strings.
-/

/-- Modelled from the spec: the error codes (`ENOMEM`, `EOUTOFDATA`,
`EBADLENGTH`, `EBADCHOICE`) are defined by the generated header produced by
`c_source/utils.py`, which is not part of the sources under verification.
Per the spec only four distinct latched error classes exist; nothing below
depends on the numeric values, only on their positivity and distinctness. -/
def ENOMEM : Int := 12

/-- Modelled from the spec: decode buffer-exhaustion error code. -/
def EOUTOFDATA : Int := 1001

/-- Modelled from the spec: decoded length/count out of bounds error code. -/
def EBADLENGTH : Int := 1002

/-- Modelled from the spec: unknown choice discriminator error code. -/
def EBADCHOICE : Int := 1003

/-- The C `struct encoder_t`: output byte buffer with capacity `size` and
cursor `pos` (both `ssize_t`).  `buf` holds the bytes written so far, i.e. the
initialized prefix of the underlying output buffer. -/
structure encoder_t where
  buf : List Nat
  size : Int
  pos : Int
deriving DecidableEq

/-- Modelled from the spec: `encoder_abort` lives in `c_source/utils.py`
(not under the verified sources).  Per spec section 4.2 the context latches
the *first* error: an abort on an unlatched context records the error by
making `size` and `pos` negative, and an abort on a latched context is a
no-op, so the first error code is kept. -/
def encoder_abort (self : encoder_t) (error : Int) : encoder_t :=
  if 0 ≤ self.size then { self with size := -error, pos := -error } else self

/-- C `encoder_alloc`: reserve `size` bytes at the cursor; on overflow latch
`ENOMEM` and return `-ENOMEM`. -/
def encoder_alloc (self : encoder_t) (size : Nat) : Int × encoder_t :=
  if self.pos + (size : Int) ≤ self.size then
    (self.pos, { self with pos := self.pos + (size : Int) })
  else
    (-ENOMEM, encoder_abort self ENOMEM)

/-- C `encoder_append_bytes`: allocate, and `memcpy` at the returned cursor
only when the allocation succeeded. -/
def encoder_append_bytes (self : encoder_t) (buf : List Nat) : encoder_t :=
  let r := encoder_alloc self buf.length
  if r.1 < 0 then r.2 else { r.2 with buf := r.2.buf ++ buf }

/-- C `encoder_append_integer_8` (the `uint8_t` parameter truncates). -/
def encoder_append_integer_8 (self : encoder_t) (value : Nat) : encoder_t :=
  encoder_append_bytes self [value % 2 ^ 8]

/-- C `encoder_append_integer_16`: two big-endian bytes of the `uint16_t`
argument. -/
def encoder_append_integer_16 (self : encoder_t) (value : Nat) : encoder_t :=
  let v := value % 2 ^ 16
  encoder_append_bytes self [(v >>> 8) % 2 ^ 8, v % 2 ^ 8]

/-- C `encoder_append_integer_32`: four big-endian bytes of the `uint32_t`
argument. -/
def encoder_append_integer_32 (self : encoder_t) (value : Nat) : encoder_t :=
  let v := value % 2 ^ 32
  encoder_append_bytes self
    [(v >>> 24) % 2 ^ 8, (v >>> 16) % 2 ^ 8, (v >>> 8) % 2 ^ 8, v % 2 ^ 8]

/-- C `encoder_append_bool`: `true` is the byte 255, `false` the byte 0. -/
def encoder_append_bool (self : encoder_t) (value : Bool) : encoder_t :=
  encoder_append_integer_8 self (if value then 255 else 0)

/-- C `encoder_append_integer`: dispatch on `number_of_bytes` (a `uint8_t`);
the `switch` falls to the 32-bit append for any width other than 1, 2, 3. -/
def encoder_append_integer (self : encoder_t) (value : Nat)
    (number_of_bytes : Nat) : encoder_t :=
  let value := value % 2 ^ 32
  let n := number_of_bytes % 2 ^ 8
  if n = 1 then
    encoder_append_integer_8 self value
  else if n = 2 then
    encoder_append_integer_16 self value
  else if n = 3 then
    encoder_append_integer_16 (encoder_append_integer_8 self (value >>> 16)) value
  else
    encoder_append_integer_32 self value

/-- C `encoder_append_length_determinant` over a `uint32_t` length. -/
def encoder_append_length_determinant (self : encoder_t) (length : Nat) :
    encoder_t :=
  let length := length % 2 ^ 32
  if length < 128 then
    encoder_append_integer_8 self length
  else if length < 256 then
    encoder_append_integer_8 (encoder_append_integer_8 self 0x81) length
  else if length < 65536 then
    encoder_append_integer_16 (encoder_append_integer_8 self 0x82) length
  else if length < 16777216 then
    encoder_append_integer_32 self (length ||| (0x83 <<< 24))
  else
    encoder_append_integer_32 (encoder_append_integer_8 self 0x84) length

/-- The C `struct decoder_t`: input byte buffer with remaining capacity
`size` and cursor `pos`. -/
structure decoder_t where
  buf : List Nat
  size : Int
  pos : Int
deriving DecidableEq

/-- Modelled from the spec: `decoder_abort` lives in `c_source/utils.py`
(not under the verified sources); same first-error latching discipline as
`encoder_abort`. -/
def decoder_abort (self : decoder_t) (error : Int) : decoder_t :=
  if 0 ≤ self.size then { self with size := -error, pos := -error } else self

/-- C `decoder_free`: reserve `size` input bytes at the cursor; on underflow
latch `EOUTOFDATA` and return `-EOUTOFDATA`. -/
def decoder_free (self : decoder_t) (size : Nat) : Int × decoder_t :=
  if self.pos + (size : Int) ≤ self.size then
    (self.pos, { self with pos := self.pos + (size : Int) })
  else
    (-EOUTOFDATA, decoder_abort self EOUTOFDATA)

/-- C `decoder_read_bytes`: on success `memcpy` from the input at the
returned cursor; on failure `memset` the destination to zero bytes. -/
def decoder_read_bytes (self : decoder_t) (size : Nat) :
    decoder_t × List Nat :=
  let r := decoder_free self size
  if 0 ≤ r.1 then (r.2, (r.2.buf.drop r.1.toNat).take size)
  else (r.2, List.replicate size 0)

/-- C `decoder_read_integer_8`. -/
def decoder_read_integer_8 (self : decoder_t) : decoder_t × Nat :=
  let r := decoder_read_bytes self 1
  (r.1, r.2.getD 0 0)

/-- C `decoder_read_integer_16`: `(buf[0] << 8) | buf[1]`. -/
def decoder_read_integer_16 (self : decoder_t) : decoder_t × Nat :=
  let r := decoder_read_bytes self 2
  (r.1, (r.2.getD 0 0 <<< 8) ||| r.2.getD 1 0)

/-- C `decoder_read_integer_32`:
`(buf[0] << 24) | (buf[1] << 16) | (buf[2] << 8) | buf[3]`. -/
def decoder_read_integer_32 (self : decoder_t) : decoder_t × Nat :=
  let r := decoder_read_bytes self 4
  (r.1,
    ((r.2.getD 0 0 <<< 24) ||| (r.2.getD 1 0 <<< 16)) |||
      (r.2.getD 2 0 <<< 8) ||| r.2.getD 3 0)

/-- C `decoder_read_bool`: a decoded byte is `true` iff nonzero. -/
def decoder_read_bool (self : decoder_t) : decoder_t × Bool :=
  let r := decoder_read_integer_8 self
  (r.1, r.2 != 0)

/-- C `decoder_read_integer`: dispatch on `number_of_bytes` (a `uint8_t`);
any width other than 1, 2, 3, 4 yields the sentinel `0xffffffff` without
reading input.  Width 3 reads one byte, then two bytes. -/
def decoder_read_integer (self : decoder_t) (number_of_bytes : Nat) :
    decoder_t × Nat :=
  let n := number_of_bytes % 2 ^ 8
  if n = 1 then
    decoder_read_integer_8 self
  else if n = 2 then
    decoder_read_integer_16 self
  else if n = 3 then
    let a := decoder_read_integer_8 self
    let b := decoder_read_integer_16 a.1
    (b.1, (a.2 <<< 16) ||| b.2)
  else if n = 4 then
    decoder_read_integer_32 self
  else
    (self, 0xffffffff)

/-- C `decoder_read_length_determinant`: one byte; if its top bit is set the
low seven bits select a follow-up width, any width outside 1..4 yielding the
sentinel `0xffffffff` without further reads. -/
def decoder_read_length_determinant (self : decoder_t) : decoder_t × Nat :=
  let r := decoder_read_integer_8 self
  if r.2 &&& 0x80 ≠ 0 then
    let n := r.2 &&& 0x7f
    if n = 1 then
      decoder_read_integer_8 r.1
    else if n = 2 then
      decoder_read_integer_16 r.1
    else if n = 3 then
      let a := decoder_read_integer_8 r.1
      let b := decoder_read_integer_16 a.1
      (b.1, (a.2 <<< 16) ||| b.2)
    else if n = 4 then
      decoder_read_integer_32 r.1
    else
      (r.1, 0xffffffff)
  else
    (r.1, r.2)

/-- An encoder context that has latched an error: per the abort discipline
both cursors are the negated error code, so `size` is negative and
`pos = size`. -/
def encoder_t.latched (e : encoder_t) : Prop := e.size < 0 ∧ e.pos = e.size

/-- A decoder context that has latched an error. -/
def decoder_t.latched (d : decoder_t) : Prop := d.size < 0 ∧ d.pos = d.size

instance (e : encoder_t) : Decidable e.latched := by
  unfold encoder_t.latched; infer_instance

instance (d : decoder_t) : Decidable d.latched := by
  unfold decoder_t.latched; infer_instance

/-! ### Basic facts about the runtime primitives -/

/-- A successful `encoder_append_bytes` appends the bytes and advances the
cursor. -/
theorem encoder_append_bytes_ok (e : encoder_t) (bs : List Nat)
    (h0 : 0 ≤ e.pos) (h : e.pos + (bs.length : Int) ≤ e.size) :
    encoder_append_bytes e bs =
      ⟨e.buf ++ bs, e.size, e.pos + (bs.length : Int)⟩ := by
  obtain ⟨b, s, p⟩ := e
  simp only [encoder_append_bytes, encoder_alloc] at *
  rw [if_pos h]
  simp only [if_neg (by omega : ¬ p < 0)]

theorem encoder_append_integer_8_ok (e : encoder_t) (v : Nat)
    (h0 : 0 ≤ e.pos) (h : e.pos + 1 ≤ e.size) :
    encoder_append_integer_8 e v =
      ⟨e.buf ++ [v % 2 ^ 8], e.size, e.pos + 1⟩ := by
  simpa using encoder_append_bytes_ok e [v % 2 ^ 8] h0 (by simpa using h)

theorem encoder_append_integer_16_ok (e : encoder_t) (v : Nat)
    (h0 : 0 ≤ e.pos) (h : e.pos + 2 ≤ e.size) :
    encoder_append_integer_16 e v =
      ⟨e.buf ++ [(v % 2 ^ 16) >>> 8 % 2 ^ 8, v % 2 ^ 16 % 2 ^ 8],
        e.size, e.pos + 2⟩ := by
  simpa [encoder_append_integer_16] using
    encoder_append_bytes_ok e [(v % 2 ^ 16) >>> 8 % 2 ^ 8, v % 2 ^ 16 % 2 ^ 8]
      h0 (by simpa using h)

theorem encoder_append_integer_32_ok (e : encoder_t) (v : Nat)
    (h0 : 0 ≤ e.pos) (h : e.pos + 4 ≤ e.size) :
    encoder_append_integer_32 e v =
      ⟨e.buf ++ [(v % 2 ^ 32) >>> 24 % 2 ^ 8, (v % 2 ^ 32) >>> 16 % 2 ^ 8,
          (v % 2 ^ 32) >>> 8 % 2 ^ 8, v % 2 ^ 32 % 2 ^ 8],
        e.size, e.pos + 4⟩ := by
  simpa [encoder_append_integer_32] using
    encoder_append_bytes_ok e
      [(v % 2 ^ 32) >>> 24 % 2 ^ 8, (v % 2 ^ 32) >>> 16 % 2 ^ 8,
        (v % 2 ^ 32) >>> 8 % 2 ^ 8, v % 2 ^ 32 % 2 ^ 8]
      h0 (by simpa using h)

/-- A successful `decoder_read_bytes` returns the bytes at the cursor and
advances it. -/
theorem decoder_read_bytes_ok (d : decoder_t) (n : Nat)
    (h0 : 0 ≤ d.pos) (h : d.pos + (n : Int) ≤ d.size) :
    decoder_read_bytes d n =
      (⟨d.buf, d.size, d.pos + (n : Int)⟩, (d.buf.drop d.pos.toNat).take n) := by
  obtain ⟨b, s, p⟩ := d
  simp only [decoder_read_bytes, decoder_free] at *
  rw [if_pos h]
  simp only [if_pos h0]

/-- Indexing into a `take`-of-`drop` window is indexing into the base list. -/
theorem getD_take_drop (l : List Nat) (p k i : Nat) (h : i < k) :
    ((l.drop p).take k).getD i 0 = l.getD (p + i) 0 := by
  simp [List.getD_eq_getElem?_getD, List.getElem?_take, h, List.getElem?_drop]

theorem decoder_read_integer_8_ok (d : decoder_t)
    (h0 : 0 ≤ d.pos) (h : d.pos + 1 ≤ d.size) :
    decoder_read_integer_8 d =
      (⟨d.buf, d.size, d.pos + 1⟩, d.buf.getD d.pos.toNat 0) := by
  simp only [decoder_read_integer_8,
    decoder_read_bytes_ok d 1 h0 (by simpa using h)]
  simp [getD_take_drop d.buf d.pos.toNat 1 0 (by omega)]

theorem decoder_read_integer_16_ok (d : decoder_t)
    (h0 : 0 ≤ d.pos) (h : d.pos + 2 ≤ d.size) :
    decoder_read_integer_16 d =
      (⟨d.buf, d.size, d.pos + 2⟩,
        (d.buf.getD d.pos.toNat 0 <<< 8) ||| d.buf.getD (d.pos.toNat + 1) 0) := by
  simp only [decoder_read_integer_16,
    decoder_read_bytes_ok d 2 h0 (by simpa using h)]
  simp [getD_take_drop d.buf d.pos.toNat 2 0 (by omega),
    getD_take_drop d.buf d.pos.toNat 2 1 (by omega)]

theorem decoder_read_integer_32_ok (d : decoder_t)
    (h0 : 0 ≤ d.pos) (h : d.pos + 4 ≤ d.size) :
    decoder_read_integer_32 d =
      (⟨d.buf, d.size, d.pos + 4⟩,
        ((d.buf.getD d.pos.toNat 0 <<< 24) |||
            (d.buf.getD (d.pos.toNat + 1) 0 <<< 16)) |||
          (d.buf.getD (d.pos.toNat + 2) 0 <<< 8) |||
          d.buf.getD (d.pos.toNat + 3) 0) := by
  simp only [decoder_read_integer_32,
    decoder_read_bytes_ok d 4 h0 (by simpa using h)]
  simp [getD_take_drop d.buf d.pos.toNat 4 0 (by omega),
    getD_take_drop d.buf d.pos.toNat 4 1 (by omega),
    getD_take_drop d.buf d.pos.toNat 4 2 (by omega),
    getD_take_drop d.buf d.pos.toNat 4 3 (by omega)]

/-- Or-ing a shifted value with a small one is addition. -/
theorem shiftLeft_or_eq_add (a b k : Nat) (h : b < 2 ^ k) :
    (a <<< k) ||| b = a * 2 ^ k + b := by
  rw [Nat.shiftLeft_eq, Nat.mul_comm, ← Nat.mul_add_lt_is_or h, Nat.mul_comm]

/-! ### Claims C5, C6, C9, C10: the runtime length-determinant and
variable-width integer primitives -/

/-- Claim C5: the length-determinant encoder produces exactly the
boundary-table bytes at 127, 128, 255, 256, 65535, 65536, 16777215 and
16777216, and the length-determinant decoder maps each of those byte
sequences back to the original value. -/
theorem length_determinant_boundary_table :
    (encoder_append_length_determinant ⟨[], 5, 0⟩ 127).buf = [0x7F] ∧
    (encoder_append_length_determinant ⟨[], 5, 0⟩ 128).buf = [0x81, 0x80] ∧
    (encoder_append_length_determinant ⟨[], 5, 0⟩ 255).buf = [0x81, 0xFF] ∧
    (encoder_append_length_determinant ⟨[], 5, 0⟩ 256).buf = [0x82, 0x01, 0x00] ∧
    (encoder_append_length_determinant ⟨[], 5, 0⟩ 65535).buf = [0x82, 0xFF, 0xFF] ∧
    (encoder_append_length_determinant ⟨[], 5, 0⟩ 65536).buf =
      [0x83, 0x01, 0x00, 0x00] ∧
    (encoder_append_length_determinant ⟨[], 5, 0⟩ 16777215).buf =
      [0x83, 0xFF, 0xFF, 0xFF] ∧
    (encoder_append_length_determinant ⟨[], 5, 0⟩ 16777216).buf =
      [0x84, 0x01, 0x00, 0x00, 0x00] ∧
    (decoder_read_length_determinant ⟨[0x7F], 1, 0⟩).2 = 127 ∧
    (decoder_read_length_determinant ⟨[0x81, 0x80], 2, 0⟩).2 = 128 ∧
    (decoder_read_length_determinant ⟨[0x81, 0xFF], 2, 0⟩).2 = 255 ∧
    (decoder_read_length_determinant ⟨[0x82, 0x01, 0x00], 3, 0⟩).2 = 256 ∧
    (decoder_read_length_determinant ⟨[0x82, 0xFF, 0xFF], 3, 0⟩).2 = 65535 ∧
    (decoder_read_length_determinant ⟨[0x83, 0x01, 0x00, 0x00], 4, 0⟩).2 = 65536 ∧
    (decoder_read_length_determinant ⟨[0x83, 0xFF, 0xFF, 0xFF], 4, 0⟩).2 = 16777215 ∧
    (decoder_read_length_determinant ⟨[0x84, 0x01, 0x00, 0x00, 0x00], 5, 0⟩).2 =
      16777216 := by
  decide

/-- Claim C9: once an error is latched (both cursors hold the negated error
code), `encoder_append_bytes` is a strict no-op (the `memcpy` is skipped), and
`decoder_read_bytes` leaves the context unchanged and zero-fills the
destination instead of touching the input buffer. -/
theorem latched_primitives_are_safe_no_ops (e : encoder_t) (d : decoder_t)
    (bs : List Nat) (n : Nat) (he : e.latched) (hd : d.latched) :
    encoder_append_bytes e bs = e ∧
    decoder_read_bytes d n = (d, List.replicate n 0) := by
  obtain ⟨hse, hpe⟩ := he
  obtain ⟨hsd, hpd⟩ := hd
  constructor
  · simp only [encoder_append_bytes, encoder_alloc, encoder_abort]
    by_cases h : e.pos + (bs.length : Int) ≤ e.size
    · have hbs : bs = [] := List.eq_nil_of_length_eq_zero (by omega)
      subst hbs
      simp [h, show e.pos < 0 by omega, show e.pos ≤ e.size by omega]
    · simp [h, show ¬ (0:Int) ≤ e.size by omega,
        show (-ENOMEM : Int) < 0 by norm_num [ENOMEM]]
  · simp only [decoder_read_bytes, decoder_free, decoder_abort]
    by_cases h : d.pos + (n : Int) ≤ d.size
    · have hn : n = 0 := by omega
      subst hn
      simp [h, show ¬ (0:Int) ≤ d.pos by omega, show d.pos ≤ d.size by omega]
    · simp [h, show ¬ (0:Int) ≤ d.size by omega,
        show ¬ (0:Int) ≤ -EOUTOFDATA by norm_num [EOUTOFDATA]]

/-- Witness for `latched_primitives_are_safe_no_ops` at a concrete latched
encoder and decoder. -/
theorem latched_primitives_are_safe_no_ops_witness :
    encoder_append_bytes ⟨[7], -12, -12⟩ [1, 2] = ⟨[7], -12, -12⟩ ∧
    decoder_read_bytes ⟨[9], -1001, -1001⟩ 3 = (⟨[9], -1001, -1001⟩, [0, 0, 0]) :=
  latched_primitives_are_safe_no_ops ⟨[7], -12, -12⟩ ⟨[9], -1001, -1001⟩
    [1, 2] 3 (by constructor <;> decide) (by constructor <;> decide)

/-- Claim C10: for the generic variable-width integer primitives the default
branch is asymmetric: `encoder_append_integer` behaves exactly like the
four-byte big-endian append for every width byte other than 1, 2, 3 (so 0 and
5 behave like 4), while `decoder_read_integer` returns the sentinel
`0xFFFFFFFF` and consumes no input for every width byte other than
1, 2, 3, 4. -/
theorem integer_width_default_branch_asymmetry :
    (∀ (w : Nat) (e : encoder_t) (v : Nat), w < 256 → w ≠ 1 → w ≠ 2 → w ≠ 3 →
      encoder_append_integer e v w = encoder_append_integer_32 e v ∧
      (0 ≤ e.pos → e.pos + 4 ≤ e.size →
        (encoder_append_integer e v w).buf =
          e.buf ++ [(v % 2 ^ 32) >>> 24 % 2 ^ 8, (v % 2 ^ 32) >>> 16 % 2 ^ 8,
            (v % 2 ^ 32) >>> 8 % 2 ^ 8, v % 2 ^ 32 % 2 ^ 8])) ∧
    (∀ (w : Nat) (d : decoder_t), w < 256 → w ≠ 1 → w ≠ 2 → w ≠ 3 → w ≠ 4 →
      decoder_read_integer d w = (d, 0xffffffff)) := by
  constructor
  · intro w e v hw h1 h2 h3
    have hmod : w % 2 ^ 8 = w := Nat.mod_eq_of_lt (by omega)
    have key : encoder_append_integer e v w = encoder_append_integer_32 e v := by
      simp only [encoder_append_integer, hmod, if_neg h1, if_neg h2, if_neg h3,
        encoder_append_integer_32, Nat.mod_mod]
    refine ⟨key, fun h0 hcap => ?_⟩
    rw [key, encoder_append_integer_32_ok e v h0 hcap]
  · intro w d hw h1 h2 h3 h4
    have hmod : w % 2 ^ 8 = w := Nat.mod_eq_of_lt (by omega)
    simp only [decoder_read_integer, hmod, if_neg h1, if_neg h2, if_neg h3,
      if_neg h4]

/-- Witness for `integer_width_default_branch_asymmetry` at widths 5 and 0. -/
theorem integer_width_default_branch_asymmetry_witness :
    (encoder_append_integer ⟨[], 4, 0⟩ 0x01020304 5 =
        encoder_append_integer_32 ⟨[], 4, 0⟩ 0x01020304) ∧
    decoder_read_integer ⟨[1, 2, 3, 4], 4, 0⟩ 0 = (⟨[1, 2, 3, 4], 4, 0⟩, 0xffffffff) :=
  ⟨(integer_width_default_branch_asymmetry.1 5 ⟨[], 4, 0⟩ 0x01020304
      (by decide) (by decide) (by decide) (by decide)).1,
    integer_width_default_branch_asymmetry.2 0 ⟨[1, 2, 3, 4], 4, 0⟩
      (by decide) (by decide) (by decide) (by decide) (by decide)⟩

/-- Or of a value that is zero modulo `2 ^ k` with a value below `2 ^ k`
is addition. -/
theorem or_eq_add_of_mod_eq_zero (x y k : Nat) (hx : x % 2 ^ k = 0)
    (hy : y < 2 ^ k) : x ||| y = x + y := by
  obtain ⟨a, rfl⟩ : ∃ a, x = 2 ^ k * a :=
    ⟨x / 2 ^ k, (Nat.mul_div_cancel' (Nat.dvd_of_mod_eq_zero hx)).symm⟩
  rw [← Nat.mul_add_lt_is_or hy]

/-- A byte below 128 has a clear top bit. -/
theorem and_top_bit_eq_zero (v : Nat) (h : v < 128) : v &&& 0x80 = 0 := by
  rw [show (0x80 : Nat) = 2 ^ 7 by norm_num, Nat.and_two_pow,
    Nat.testBit_lt_two_pow (by omega)]
  simp

/-- Decoding a one-byte length determinant. -/
theorem read_length_determinant_one (v : Nat) (h : v < 128) :
    (decoder_read_length_determinant ⟨[v], 1, 0⟩).2 = v := by
  simp only [decoder_read_length_determinant,
    decoder_read_integer_8_ok ⟨[v], 1, 0⟩ (by norm_num) (by norm_num)]
  simp [List.getD, and_top_bit_eq_zero v h]

/-- Decoding a `0x81`-prefixed length determinant. -/
theorem read_length_determinant_two (v : Nat) :
    (decoder_read_length_determinant ⟨[0x81, v], 2, 0⟩).2 = v := by
  simp only [decoder_read_length_determinant,
    decoder_read_integer_8_ok ⟨[0x81, v], 2, 0⟩ (by norm_num) (by norm_num)]
  norm_num [List.getD]
  rw [decoder_read_integer_8_ok ⟨[0x81, v], 2, 1⟩ (by norm_num) (by norm_num)]
  norm_num [List.getD]
  simp [show (129 : Nat) &&& 128 = 128 by decide,
    show (129 : Nat) &&& 127 = 1 by decide]

/-- Decoding a `0x82`-prefixed length determinant. -/
theorem read_length_determinant_three (v : Nat) :
    (decoder_read_length_determinant ⟨[0x82, v / 256, v % 256], 3, 0⟩).2 = v := by
  simp only [decoder_read_length_determinant,
    decoder_read_integer_8_ok ⟨[0x82, v / 256, v % 256], 3, 0⟩
      (by norm_num) (by norm_num)]
  norm_num [List.getD]
  rw [decoder_read_integer_16_ok ⟨[0x82, v / 256, v % 256], 3, 1⟩
    (by norm_num) (by norm_num)]
  norm_num [List.getD]
  rw [shiftLeft_or_eq_add _ _ _ (by omega)]
  simp [show (130 : Nat) &&& 128 = 128 by decide,
    show (130 : Nat) &&& 127 = 2 by decide]
  omega

/-- Decoding a `0x83`-prefixed (24-bit) length determinant. -/
theorem read_length_determinant_four (v : Nat) :
    (decoder_read_length_determinant
        ⟨[0x83, v / 65536, v / 256 % 256, v % 256], 4, 0⟩).2 = v := by
  simp only [decoder_read_length_determinant,
    decoder_read_integer_8_ok ⟨[0x83, v / 65536, v / 256 % 256, v % 256], 4, 0⟩
      (by norm_num) (by norm_num)]
  norm_num [List.getD, show (131 : Nat) &&& 128 = 128 by decide,
    show (131 : Nat) &&& 127 = 3 by decide]
  rw [decoder_read_integer_8_ok ⟨[0x83, v / 65536, v / 256 % 256, v % 256], 4, 1⟩
    (by norm_num) (by norm_num)]
  norm_num [List.getD]
  rw [decoder_read_integer_16_ok ⟨[0x83, v / 65536, v / 256 % 256, v % 256], 4, 2⟩
    (by norm_num) (by norm_num)]
  norm_num [List.getD, show ((2 : Int).toNat) = 2 from rfl]
  rw [shiftLeft_or_eq_add (v / 256 % 256) (v % 256) 8 (by omega),
    shiftLeft_or_eq_add (v / 65536) _ 16 (by omega)]
  omega

/-- Decoding a `0x84`-prefixed (32-bit) length determinant. -/
theorem read_length_determinant_five (v : Nat) :
    (decoder_read_length_determinant
        ⟨[0x84, v / 16777216 % 256, v / 65536 % 256, v / 256 % 256, v % 256],
          5, 0⟩).2 = v % 4294967296 := by
  simp only [decoder_read_length_determinant,
    decoder_read_integer_8_ok
      ⟨[0x84, v / 16777216 % 256, v / 65536 % 256, v / 256 % 256, v % 256], 5, 0⟩
      (by norm_num) (by norm_num)]
  norm_num [List.getD, show (132 : Nat) &&& 128 = 128 by decide,
    show (132 : Nat) &&& 127 = 4 by decide]
  rw [decoder_read_integer_32_ok
    ⟨[0x84, v / 16777216 % 256, v / 65536 % 256, v / 256 % 256, v % 256], 5, 1⟩
    (by norm_num) (by norm_num)]
  norm_num [List.getD, show ((1 : Int).toNat) = 1 from rfl]
  rw [Nat.shiftLeft_eq, Nat.shiftLeft_eq, Nat.shiftLeft_eq,
    or_eq_add_of_mod_eq_zero (v / 16777216 % 256 * 2 ^ 24)
      (v / 65536 % 256 * 2 ^ 16) 24 (by omega) (by omega),
    or_eq_add_of_mod_eq_zero
      (v / 16777216 % 256 * 2 ^ 24 + v / 65536 % 256 * 2 ^ 16)
      (v / 256 % 256 * 2 ^ 8) 16 (by omega) (by omega),
    or_eq_add_of_mod_eq_zero
      (v / 16777216 % 256 * 2 ^ 24 + v / 65536 % 256 * 2 ^ 16 +
        v / 256 % 256 * 2 ^ 8)
      (v % 256) 8 (by omega) (by omega)]
  omega

/-- Length-determinant encoding, one-byte branch. -/
theorem append_length_determinant_buf_one (v : Nat) (h : v < 128) :
    (encoder_append_length_determinant ⟨[], 5, 0⟩ v).buf = [v] := by
  simp only [encoder_append_length_determinant,
    Nat.mod_eq_of_lt (show v < 2 ^ 32 by omega), if_pos h]
  rw [encoder_append_integer_8_ok ⟨[], 5, 0⟩ v (by norm_num) (by norm_num)]
  simp
  omega

/-- Length-determinant encoding, `0x81` branch. -/
theorem append_length_determinant_buf_two (v : Nat) (h1 : 128 ≤ v)
    (h2 : v < 256) :
    (encoder_append_length_determinant ⟨[], 5, 0⟩ v).buf = [0x81, v] := by
  simp only [encoder_append_length_determinant,
    Nat.mod_eq_of_lt (show v < 2 ^ 32 by omega), if_neg (by omega : ¬ v < 128),
    if_pos h2]
  rw [encoder_append_integer_8_ok ⟨[], 5, 0⟩ 0x81 (by norm_num) (by norm_num)]
  norm_num
  rw [encoder_append_integer_8_ok ⟨[0x81], 5, 1⟩ v (by norm_num) (by norm_num)]
  simp
  omega

/-- Length-determinant encoding, `0x82` branch. -/
theorem append_length_determinant_buf_three (v : Nat) (h1 : 256 ≤ v)
    (h2 : v < 65536) :
    (encoder_append_length_determinant ⟨[], 5, 0⟩ v).buf =
      [0x82, v / 256, v % 256] := by
  simp only [encoder_append_length_determinant,
    Nat.mod_eq_of_lt (show v < 2 ^ 32 by omega), if_neg (by omega : ¬ v < 128),
    if_neg (by omega : ¬ v < 256), if_pos h2]
  rw [encoder_append_integer_8_ok ⟨[], 5, 0⟩ 0x82 (by norm_num) (by norm_num)]
  norm_num
  rw [encoder_append_integer_16_ok ⟨[0x82], 5, 1⟩ v (by norm_num) (by norm_num)]
  simp [Nat.shiftRight_eq_div_pow]
  omega

/-- Length-determinant encoding, `0x83` branch (the bit-or trick folding the
tag into the top byte of a 32-bit write). -/
theorem append_length_determinant_buf_four (v : Nat) (h1 : 65536 ≤ v)
    (h2 : v < 16777216) :
    (encoder_append_length_determinant ⟨[], 5, 0⟩ v).buf =
      [0x83, v / 65536, v / 256 % 256, v % 256] := by
  have harg : v ||| (0x83 <<< 24) = 2197815296 + v := by
    rw [Nat.lor_comm, show ((0x83 : Nat) <<< 24) = 2 ^ 24 * 0x83 by
      rw [Nat.shiftLeft_eq]; ring,
      ← Nat.mul_add_lt_is_or (show v < 2 ^ 24 by omega)]
  simp only [encoder_append_length_determinant,
    Nat.mod_eq_of_lt (show v < 2 ^ 32 by omega), if_neg (by omega : ¬ v < 128),
    if_neg (by omega : ¬ v < 256), if_neg (by omega : ¬ v < 65536), if_pos h2,
    harg]
  rw [encoder_append_integer_32_ok ⟨[], 5, 0⟩ (2197815296 + v)
    (by norm_num) (by norm_num)]
  simp [Nat.shiftRight_eq_div_pow]
  omega

/-- Length-determinant encoding, `0x84` branch. -/
theorem append_length_determinant_buf_five (v : Nat) (h1 : 16777216 ≤ v)
    (h2 : v < 4294967296) :
    (encoder_append_length_determinant ⟨[], 5, 0⟩ v).buf =
      [0x84, v / 16777216 % 256, v / 65536 % 256, v / 256 % 256, v % 256] := by
  simp only [encoder_append_length_determinant,
    Nat.mod_eq_of_lt (show v < 2 ^ 32 by omega), if_neg (by omega : ¬ v < 128),
    if_neg (by omega : ¬ v < 256), if_neg (by omega : ¬ v < 65536),
    if_neg (by omega : ¬ v < 16777216)]
  rw [encoder_append_integer_8_ok ⟨[], 5, 0⟩ 0x84 (by norm_num) (by norm_num)]
  norm_num
  rw [encoder_append_integer_32_ok ⟨[0x84], 5, 1⟩ v (by norm_num) (by norm_num)]
  simp [Nat.shiftRight_eq_div_pow]
  omega

/-- Claim C6: for every 32-bit value `v`, decoding the byte sequence the
length-determinant encoder produced for `v` (with sufficient encode capacity,
and a decode buffer holding exactly the encoded bytes) yields `v` again. -/
theorem length_determinant_round_trip (v : Nat) (hv : v < 2 ^ 32) :
    (decoder_read_length_determinant
        ⟨(encoder_append_length_determinant ⟨[], 5, 0⟩ v).buf,
          ((encoder_append_length_determinant ⟨[], 5, 0⟩ v).buf.length : Int),
          0⟩).2 = v := by
  by_cases h1 : v < 128
  · rw [append_length_determinant_buf_one v h1]
    simpa using read_length_determinant_one v h1
  by_cases h2 : v < 256
  · rw [append_length_determinant_buf_two v (by omega) h2]
    simpa using read_length_determinant_two v
  by_cases h3 : v < 65536
  · rw [append_length_determinant_buf_three v (by omega) h3]
    simpa using read_length_determinant_three v
  by_cases h4 : v < 16777216
  · rw [append_length_determinant_buf_four v (by omega) h4]
    simpa using read_length_determinant_four v
  · rw [append_length_determinant_buf_five v (by omega) (by omega)]
    have := read_length_determinant_five v
    rw [Nat.mod_eq_of_lt (show v < 4294967296 by omega)] at this
    simpa using this

/-- Witness for `length_determinant_round_trip` at `v = 1000`. -/
theorem length_determinant_round_trip_witness :
    (decoder_read_length_determinant
        ⟨(encoder_append_length_determinant ⟨[], 5, 0⟩ 1000).buf,
          ((encoder_append_length_determinant ⟨[], 5, 0⟩ 1000).buf.length : Int),
          0⟩).2 = 1000 :=
  length_determinant_round_trip 1000 (by norm_num)

/-! ### Claim C1: the generated fixed-count sequence-of codec -/

/-- The encode instruction sequence `format_sequence_of_inner` emits for a
sequence-of with a fixed count (`checker.minimum == checker.maximum`), with a
one-byte boolean element type: `encoder_append_integer_8(encoder_p, 1);`,
`encoder_append_integer_8(encoder_p, max);`, then a loop of `max` element
encodings of `src_p->elements[i]`. -/
def oer_seq_of_fixed_bool_encode (max : Nat) (elements : Nat → Bool)
    (e : encoder_t) : encoder_t :=
  (List.range max).foldl (fun e i => encoder_append_bool e (elements i))
    (encoder_append_integer_8 (encoder_append_integer_8 e 1) max)

/-- The decode instruction sequence `format_sequence_of_inner` emits for the
same shape: read `number_of_length_bytes` and `length`, abort with
`EBADLENGTH` (reading nothing further) when
`(number_of_length_bytes != 1) || (length > max)`, else loop exactly `max`
times decoding `dst_p->elements[i]`. -/
def oer_seq_of_fixed_bool_decode (max : Nat) (d : decoder_t)
    (elements : Nat → Bool) : decoder_t × (Nat → Bool) :=
  let r1 := decoder_read_integer_8 d
  let r2 := decoder_read_integer_8 r1.1
  if r1.2 ≠ 1 ∨ r2.2 > max then
    (decoder_abort r2.1 EBADLENGTH, elements)
  else
    (List.range max).foldl
      (fun q i =>
        let rb := decoder_read_bool q.1
        (rb.1, Function.update q.2 i rb.2))
      (r2.1, elements)

/-- Generic shape lemma for generated encode loops: a fold of steps that each
append a fixed byte list appends the concatenation. -/
theorem foldl_encoder_append {α : Type} (step : encoder_t → α → encoder_t)
    (f : α → List Nat)
    (hstep : ∀ (a : α) (e : encoder_t), 0 ≤ e.pos →
      e.pos + ((f a).length : Int) ≤ e.size →
      step e a = ⟨e.buf ++ f a, e.size, e.pos + ((f a).length : Int)⟩) :
    ∀ (L : List α) (e : encoder_t), 0 ≤ e.pos →
      e.pos + (((L.map f).join.length : Nat) : Int) ≤ e.size →
      L.foldl step e =
        ⟨e.buf ++ (L.map f).join, e.size,
          e.pos + (((L.map f).join.length : Nat) : Int)⟩ := by
  intro L
  induction L with
  | nil =>
    intro e h0 hcap
    obtain ⟨b, s, p⟩ := e
    simp
  | cons a L ih =>
    intro e h0 hcap
    have hlen : ((a :: L).map f).join.length =
        (f a).length + (L.map f).join.length := by
      simp
    rw [hlen] at hcap
    push_cast at hcap
    rw [List.foldl_cons, hstep a e h0 (by omega),
      ih ⟨e.buf ++ f a, e.size, e.pos + ((f a).length : Int)⟩
        (by show (0 : Int) ≤ e.pos + ((f a).length : Int); omega)
        (by show e.pos + ((f a).length : Int) +
              (((L.map f).join.length : Nat) : Int) ≤ e.size; omega)]
    have hjoin : ((a :: L).map f).join = f a ++ (L.map f).join := by simp
    rw [hjoin, ← List.append_assoc]
    congr 1
    simp only [List.length_append]
    push_cast
    ring

theorem join_map_singleton {α β : Type} (l : List α) (g : α → β) :
    (l.map fun a => [g a]).join = l.map g := by
  induction l with
  | nil => simp
  | cons a l ih => simp [ih]

/-- The boolean element encode step appends exactly one byte. -/
theorem encoder_append_bool_step (elements : Nat → Bool) (i : Nat)
    (e : encoder_t) (h0 : 0 ≤ e.pos)
    (h : e.pos + (([if elements i then 255 else 0] : List Nat).length : Int) ≤
      e.size) :
    encoder_append_bool e (elements i) =
      ⟨e.buf ++ [if elements i then 255 else 0], e.size,
        e.pos + (([if elements i then 255 else 0] : List Nat).length : Int)⟩ := by
  rw [encoder_append_bool,
    encoder_append_integer_8_ok e _ h0 (by simpa using h)]
  cases hb : elements i <;> simp

/-- The fixed-count sequence-of encoder writes the byte 1, the byte `max`,
then the `max` one-byte element encodings, in order. -/
theorem seq_of_fixed_bool_encode_buf (max : Nat) (elements : Nat → Bool)
    (hmax : max < 256) :
    (oer_seq_of_fixed_bool_encode max elements ⟨[], 2 + (max : Int), 0⟩).buf =
      1 :: max ::
        (List.range max).map (fun i => if elements i then 255 else 0) := by
  rw [oer_seq_of_fixed_bool_encode,
    encoder_append_integer_8_ok ⟨[], 2 + (max : Int), 0⟩ 1 (by norm_num)
      (by show (0 : Int) + 1 ≤ 2 + (max : Int); omega),
    encoder_append_integer_8_ok _ max (by show (0 : Int) ≤ 0 + 1; norm_num)
      (by show (0 : Int) + 1 + 1 ≤ 2 + (max : Int); omega)]
  rw [foldl_encoder_append _ (fun i => [if elements i then 255 else 0])
    (fun a e h0 h => encoder_append_bool_step elements a e h0 h) (List.range max)
    _ (by show (0 : Int) ≤ 0 + 1 + 1; norm_num)
    (by
      show (0 : Int) + 1 + 1 +
        ((((List.range max).map fun i =>
          ([if elements i then 255 else 0] : List Nat)).join.length : Nat) : Int) ≤
        2 + (max : Int)
      rw [join_map_singleton, List.length_map, List.length_range]
      omega)]
  simp [join_map_singleton, Nat.mod_eq_of_lt hmax]

/-- The generated fixed-count decode loop reads `max` sequential bytes and
stores each decoded boolean at its index. -/
theorem read_bool_fold (max : Nat) (bs : List Nat) (s : Int) (p : Nat)
    (g : Nat → Bool) (h : (p : Int) + (max : Int) ≤ s) :
    (List.range max).foldl
        (fun q i =>
          ((decoder_read_bool q.1).1, Function.update q.2 i (decoder_read_bool q.1).2))
        (⟨bs, s, (p : Int)⟩, g) =
      (⟨bs, s, (p : Int) + (max : Int)⟩,
        fun j => if j < max then bs.getD (p + j) 0 != 0 else g j) := by
  induction max with
  | zero =>
    simp only [List.range_zero, List.foldl_nil, Nat.cast_zero, Int.add_zero]
    refine Prod.ext rfl ?_
    funext j
    simp
  | succ n ih =>
    rw [List.range_succ, List.foldl_append,
      ih (by push_cast at h ⊢; omega), List.foldl_cons, List.foldl_nil]
    simp only [decoder_read_bool,
      decoder_read_integer_8_ok ⟨bs, s, (p : Int) + (n : Int)⟩
        (by positivity) (by push_cast at h ⊢; omega)]
    have htn : ((p : Int) + (n : Int)).toNat = p + n := by omega
    refine Prod.ext ?_ ?_
    · show (⟨bs, s, (p : Int) + (n : Int) + 1⟩ : decoder_t) =
        ⟨bs, s, (p : Int) + ((n : Nat) + 1 : Nat)⟩
      congr 1
    · funext j
      by_cases hj : j = n
      · simp [Function.update, hj, htn]
      · by_cases hlt : j < n
        · simp [Function.update, hj, show j < n + 1 by omega, hlt]
        · simp [Function.update, hj, show ¬ j < n + 1 by omega, hlt]

/-- The generated fixed-count sequence-of decoder on a buffer whose first two
bytes fail the `(number_of_length_bytes != 1) || (length > max)` check:
abort with `EBADLENGTH`, decode no elements. -/
theorem seq_of_fixed_bool_decode_abort (max b0 b1 : Nat) (rest : List Nat)
    (elements : Nat → Bool) (hbad : b0 ≠ 1 ∨ max < b1) :
    oer_seq_of_fixed_bool_decode max
        ⟨b0 :: b1 :: rest, 2 + (rest.length : Int), 0⟩ elements =
      (decoder_abort ⟨b0 :: b1 :: rest, 2 + (rest.length : Int), 2⟩ EBADLENGTH,
        elements) := by
  simp only [oer_seq_of_fixed_bool_decode,
    decoder_read_integer_8_ok ⟨b0 :: b1 :: rest, 2 + (rest.length : Int), 0⟩
      (by norm_num) (by show (0 : Int) + 1 ≤ 2 + (rest.length : Int); omega)]
  norm_num [List.getD]
  rw [decoder_read_integer_8_ok ⟨b0 :: b1 :: rest, 2 + (rest.length : Int), 1⟩
    (by norm_num) (by show (1 : Int) + 1 ≤ 2 + (rest.length : Int); omega)]
  norm_num [List.getD]
  intro h1 h2
  exfalso
  omega

/-- The generated fixed-count sequence-of decoder on a buffer passing the
check: reads the two count bytes, then exactly `max` element bytes,
regardless of the transmitted `length` byte. -/
theorem seq_of_fixed_bool_decode_success (max len1 : Nat) (body : List Nat)
    (elements : Nat → Bool) (hlen : len1 ≤ max) (hbody : max ≤ body.length) :
    oer_seq_of_fixed_bool_decode max
        ⟨1 :: len1 :: body, 2 + (body.length : Int), 0⟩ elements =
      (⟨1 :: len1 :: body, 2 + (body.length : Int), 2 + (max : Int)⟩,
        fun j => if j < max then body.getD j 0 != 0 else elements j) := by
  simp only [oer_seq_of_fixed_bool_decode,
    decoder_read_integer_8_ok ⟨1 :: len1 :: body, 2 + (body.length : Int), 0⟩
      (by norm_num) (by show (0 : Int) + 1 ≤ 2 + (body.length : Int); omega)]
  norm_num [List.getD]
  rw [decoder_read_integer_8_ok ⟨1 :: len1 :: body, 2 + (body.length : Int), 1⟩
    (by norm_num) (by show (1 : Int) + 1 ≤ 2 + (body.length : Int); omega)]
  norm_num [List.getD]
  rw [if_neg (by omega : ¬ max < len1)]
  have h2 : ((2 : Nat) : Int) = (2 : Int) := by norm_num
  rw [← h2, read_bool_fold max (1 :: len1 :: body)
    (((2 : Nat) : Int) + (body.length : Int)) 2 elements (by push_cast; omega)]
  refine Prod.ext rfl ?_
  funext j
  by_cases hj : j < max
  · simp [hj, show 2 + j = j + 1 + 1 by omega]
  · simp [hj]

/-- Counterexample to claim C1 as stated: for fixed count `max = 3`, a buffer
whose second byte (2) differs from `max` but does not exceed it is *not*
rejected: the generated check is `(number_of_length_bytes != 1) || (length >
max)`, so decoding `[0x01, 0x02, 0xFF, 0x00, 0xFF]` does not abort (the final
cursor is 5, no error latched) and still decodes all three elements. -/
theorem seq_of_fixed_count_decode_counterexample :
    (oer_seq_of_fixed_bool_decode 3 ⟨[1, 2, 255, 0, 255], 5, 0⟩
        (fun _ => false)).1 = ⟨[1, 2, 255, 0, 255], 5, 5⟩ ∧
    (oer_seq_of_fixed_bool_decode 3 ⟨[1, 2, 255, 0, 255], 5, 0⟩
        (fun _ => false)).2 0 = true ∧
    (oer_seq_of_fixed_bool_decode 3 ⟨[1, 2, 255, 0, 255], 5, 0⟩
        (fun _ => false)).2 1 = false ∧
    (oer_seq_of_fixed_bool_decode 3 ⟨[1, 2, 255, 0, 255], 5, 0⟩
        (fun _ => false)).2 2 = true := by
  decide

/-- Claim C1 (amended): for a fixed-count sequence-of, the generated encoder
emits one byte holding the constant 1, one byte holding `max`, then exactly
`max` element encodings; the generated decoder reads those two bytes and
verifies the first equals 1 and the second is *at most* `max` (not exactly
`max`), aborting with `EBADLENGTH` and decoding no elements otherwise; on
success it decodes exactly `max` elements regardless of the transmitted
count byte. -/
theorem seq_of_fixed_count_codec :
    (∀ (max : Nat) (elements : Nat → Bool), max < 256 →
      (oer_seq_of_fixed_bool_encode max elements ⟨[], 2 + (max : Int), 0⟩).buf =
        1 :: max ::
          (List.range max).map (fun i => if elements i then 255 else 0)) ∧
    (∀ (max b0 b1 : Nat) (rest : List Nat) (elements : Nat → Bool),
      b0 ≠ 1 ∨ max < b1 →
      oer_seq_of_fixed_bool_decode max
          ⟨b0 :: b1 :: rest, 2 + (rest.length : Int), 0⟩ elements =
        (decoder_abort ⟨b0 :: b1 :: rest, 2 + (rest.length : Int), 2⟩
            EBADLENGTH,
          elements)) ∧
    (∀ (max len1 : Nat) (body : List Nat) (elements : Nat → Bool),
      len1 ≤ max → max ≤ body.length →
      oer_seq_of_fixed_bool_decode max
          ⟨1 :: len1 :: body, 2 + (body.length : Int), 0⟩ elements =
        (⟨1 :: len1 :: body, 2 + (body.length : Int), 2 + (max : Int)⟩,
          fun j => if j < max then body.getD j 0 != 0 else elements j)) :=
  ⟨seq_of_fixed_bool_encode_buf, seq_of_fixed_bool_decode_abort,
    seq_of_fixed_bool_decode_success⟩

/-- Witness for `seq_of_fixed_count_codec` at the boundary vector of the
spec: fixed count 3 of booleans `[true, false, true]`. -/
theorem seq_of_fixed_count_codec_witness :
    (oer_seq_of_fixed_bool_encode 3 (fun i => i != 1)
        ⟨[], 2 + ((3 : Nat) : Int), 0⟩).buf =
      1 :: 3 :: (List.range 3).map (fun i => if i != 1 then 255 else 0) ∧
    oer_seq_of_fixed_bool_decode 3
        ⟨1 :: 4 :: [255, 0, 255], 2 + (([255, 0, 255] : List Nat).length : Int),
          0⟩ (fun _ => false) =
      (decoder_abort
          ⟨1 :: 4 :: [255, 0, 255], 2 + (([255, 0, 255] : List Nat).length : Int),
            2⟩ EBADLENGTH,
        fun _ => false) ∧
    oer_seq_of_fixed_bool_decode 3
        ⟨1 :: 3 :: [255, 0, 255], 2 + (([255, 0, 255] : List Nat).length : Int),
          0⟩ (fun _ => false) =
      (⟨1 :: 3 :: [255, 0, 255], 2 + (([255, 0, 255] : List Nat).length : Int),
          2 + ((3 : Nat) : Int)⟩,
        fun j => if j < 3 then ([255, 0, 255] : List Nat).getD j 0 != 0
          else false) :=
  ⟨seq_of_fixed_count_codec.1 3 (fun i => i != 1) (by decide),
    seq_of_fixed_count_codec.2.1 3 1 4 [255, 0, 255] (fun _ => false)
      (by decide),
    seq_of_fixed_count_codec.2.2 3 3 [255, 0, 255] (fun _ => false)
      (by decide) (by decide)⟩

/-! ### Claim C8: the generated choice codec -/

/-- The generated destination/source record for the two-alternative choice of
the spec example (`0x01` tagging a one-byte integer member `a`, `0x02`
tagging a boolean member `b`): an enum selector plus the union payload. -/
structure choice_example_t where
  choice : Nat
  value_a : Nat
  value_b : Bool
deriving DecidableEq

/-- Generated enum constant for the first alternative. -/
def choice_a_e : Nat := 0

/-- Generated enum constant for the second alternative. -/
def choice_b_e : Nat := 1

/-- The encode instruction sequence `format_choice_inner` emits: a `switch`
on the selector; each alternative appends its one-byte tag
(`encoder_append_integer_8(encoder_p, 0x..)`) then its payload; the default
case aborts with `EBADCHOICE`. -/
def oer_choice_encode (e : encoder_t) (src : choice_example_t) : encoder_t :=
  if src.choice = choice_a_e then
    encoder_append_integer_8 (encoder_append_integer_8 e 0x01) src.value_a
  else if src.choice = choice_b_e then
    encoder_append_bool (encoder_append_integer_8 e 0x02) src.value_b
  else
    encoder_abort e EBADCHOICE

/-- The decode instruction sequence `format_choice_inner` emits: read one tag
byte, `switch` on it by equality; each known tag sets the selector and
decodes its payload; the default case aborts with `EBADCHOICE` and performs
no payload read. -/
def oer_choice_decode (d : decoder_t) (dst : choice_example_t) :
    decoder_t × choice_example_t :=
  let rt := decoder_read_integer_8 d
  if rt.2 = 0x01 then
    let rv := decoder_read_integer_8 rt.1
    (rv.1, { dst with choice := choice_a_e, value_a := rv.2 })
  else if rt.2 = 0x02 then
    let rv := decoder_read_bool rt.1
    (rv.1, { dst with choice := choice_b_e, value_b := rv.2 })
  else
    (decoder_abort rt.1 EBADCHOICE, dst)

/-- Claim C8: the generated choice encoder writes the selected alternative's
one-byte tag followed by its payload (the bool alternative with value `true`
yields `[0x02, 0xFF]`); the decoder reads exactly one tag byte and dispatches
by equality, an unknown tag aborting with `EBADCHOICE` after consuming only
the tag byte and leaving the destination untouched. -/
theorem choice_codec_tag_dispatch :
    (∀ (a0 : Nat) (b : Bool),
      (oer_choice_encode ⟨[], 2, 0⟩ ⟨choice_b_e, a0, b⟩).buf =
        [0x02, if b then 255 else 0]) ∧
    (∀ (v b0 : Nat) (vb : Bool), v < 256 → b0 = choice_a_e →
      (oer_choice_encode ⟨[], 2, 0⟩ ⟨b0, v, vb⟩).buf = [0x01, v]) ∧
    (∀ (tag : Nat) (rest : List Nat) (dst : choice_example_t),
      tag ≠ 0x01 → tag ≠ 0x02 →
      oer_choice_decode ⟨tag :: rest, 1 + (rest.length : Int), 0⟩ dst =
        (decoder_abort ⟨tag :: rest, 1 + (rest.length : Int), 1⟩ EBADCHOICE,
          dst)) ∧
    (∀ (v : Nat) (rest : List Nat) (dst : choice_example_t),
      oer_choice_decode ⟨1 :: v :: rest, 2 + (rest.length : Int), 0⟩ dst =
        (⟨1 :: v :: rest, 2 + (rest.length : Int), 2⟩,
          { dst with choice := choice_a_e, value_a := v })) ∧
    (∀ (v : Nat) (rest : List Nat) (dst : choice_example_t),
      oer_choice_decode ⟨2 :: v :: rest, 2 + (rest.length : Int), 0⟩ dst =
        (⟨2 :: v :: rest, 2 + (rest.length : Int), 2⟩,
          { dst with choice := choice_b_e, value_b := v != 0 })) := by
  refine ⟨?_, ?_, ?_, ?_, ?_⟩
  · intro a0 b
    rw [oer_choice_encode]
    norm_num [choice_a_e, choice_b_e]
    rw [encoder_append_bool,
      encoder_append_integer_8_ok ⟨[], 2, 0⟩ 2 (by norm_num) (by norm_num)]
    norm_num
    rw [encoder_append_integer_8_ok ⟨[2], 2, 1⟩ _ (by norm_num) (by norm_num)]
    cases b <;> simp
  · intro v b0 vb hv hb0
    rw [oer_choice_encode]
    norm_num [hb0, choice_a_e]
    rw [encoder_append_integer_8_ok ⟨[], 2, 0⟩ 1 (by norm_num) (by norm_num)]
    norm_num
    rw [encoder_append_integer_8_ok ⟨[1], 2, 1⟩ v (by norm_num) (by norm_num)]
    simp
    omega
  · intro tag rest dst h1 h2
    rw [oer_choice_decode,
      decoder_read_integer_8_ok ⟨tag :: rest, 1 + (rest.length : Int), 0⟩
        (by norm_num) (by show (0 : Int) + 1 ≤ 1 + (rest.length : Int); omega)]
    norm_num [List.getD]
    rw [if_neg h1, if_neg h2]
  · intro v rest dst
    rw [oer_choice_decode,
      decoder_read_integer_8_ok ⟨1 :: v :: rest, 2 + (rest.length : Int), 0⟩
        (by norm_num) (by show (0 : Int) + 1 ≤ 2 + (rest.length : Int); omega)]
    norm_num [List.getD]
    rw [decoder_read_integer_8_ok ⟨1 :: v :: rest, 2 + (rest.length : Int), 1⟩
      (by norm_num) (by show (1 : Int) + 1 ≤ 2 + (rest.length : Int); omega)]
    norm_num [List.getD]
  · intro v rest dst
    rw [oer_choice_decode,
      decoder_read_integer_8_ok ⟨2 :: v :: rest, 2 + (rest.length : Int), 0⟩
        (by norm_num) (by show (0 : Int) + 1 ≤ 2 + (rest.length : Int); omega)]
    norm_num [List.getD]
    rw [decoder_read_bool,
      decoder_read_integer_8_ok ⟨2 :: v :: rest, 2 + (rest.length : Int), 1⟩
        (by norm_num) (by show (1 : Int) + 1 ≤ 2 + (rest.length : Int); omega)]
    norm_num [List.getD]

/-- Witness for `choice_codec_tag_dispatch`: encoding the bool alternative
with value `true` yields `[0x02, 0xFF]`, and decoding the unknown tag `0x03`
aborts with `EBADCHOICE` without reading past the tag byte. -/
theorem choice_codec_tag_dispatch_witness :
    (oer_choice_encode ⟨[], 2, 0⟩ ⟨choice_b_e, 0, true⟩).buf =
      [0x02, if true then 255 else 0] ∧
    oer_choice_decode ⟨3 :: [7, 8], 1 + (([7, 8] : List Nat).length : Int), 0⟩
        ⟨choice_a_e, 0, false⟩ =
      (decoder_abort ⟨3 :: [7, 8], 1 + (([7, 8] : List Nat).length : Int), 1⟩
          EBADCHOICE,
        ⟨choice_a_e, 0, false⟩) :=
  ⟨choice_codec_tag_dispatch.1 0 true,
    choice_codec_tag_dispatch.2.2.1 3 [7, 8] ⟨choice_a_e, 0, false⟩
      (by decide) (by decide)⟩

/-! ### Claim C7: the generated sequence codec with a presence bitmask -/

/-- Kind of a sequence member as `format_sequence_inner` distinguishes them:
plain (mandatory), `optional`, or carrying a `default` value.  Payloads are
modelled as one-byte integers (the shape of the claim and the spec
examples). -/
inductive member_kind : Type
  | mandatory : member_kind
  | optional : member_kind
  | default_value : Nat → member_kind
deriving DecidableEq

/-- `member.optional or member.default is not None`: whether a member gets a
bit in the leading presence mask. -/
def member_in_mask : member_kind → Bool
  | .mandatory => false
  | .optional => true
  | .default_value _ => true

/-- The `optionals` list of `format_sequence_inner`: the mask-carrying
members, paired with their declaration index. -/
def seq_optionals (members : List member_kind) : List (Nat × member_kind) :=
  members.enum.filter (fun p => member_in_mask p.2)

/-- The presence-mask bytes the generated encode code computes: a zeroed
array of `(len(optionals) + 7) // 8` bytes; the i-th mask member, when its
condition holds (`is_present` for an optional, `value != default` for a
default member), sets bit `1 << (7 - i % 8)` of byte `i / 8`. -/
def seq_present_mask (members : List member_kind) (values : Nat → Nat)
    (present : Nat → Bool) : List Nat :=
  let optionals := seq_optionals members
  (optionals.enum).foldl
    (fun mask q =>
      let cond := match q.2.2 with
        | .optional => present q.2.1
        | .default_value d => values q.2.1 != d
        | .mandatory => false
      if cond then
        mask.set (q.1 / 8) (mask.getD (q.1 / 8) 0 ||| (1 <<< (7 - q.1 % 8)))
      else mask)
    (List.replicate ((optionals.length + 7) / 8) 0)

/-- The payload bytes following the mask: every member in declaration order,
mandatory members unconditionally, optional members when present, default
members when the value differs from the default. -/
def seq_payload (members : List member_kind) (values : Nat → Nat)
    (present : Nat → Bool) : List Nat :=
  (members.enum.map (fun p =>
    match p.2 with
    | .mandatory => [values p.1 % 2 ^ 8]
    | .optional => if present p.1 then [values p.1 % 2 ^ 8] else []
    | .default_value d =>
      if values p.1 != d then [values p.1 % 2 ^ 8] else [])).join

/-- The encode instruction sequence `format_sequence_inner` emits: build the
presence mask, append it (when there are mask members at all), then append
every member payload conditionally in declaration order. -/
def oer_seq_encode (members : List member_kind) (values : Nat → Nat)
    (present : Nat → Bool) (e : encoder_t) : encoder_t :=
  let mask := seq_present_mask members values present
  let e := if 0 < mask.length then encoder_append_bytes e mask else e
  (members.enum).foldl
    (fun e p =>
      match p.2 with
      | .mandatory => encoder_append_integer_8 e (values p.1)
      | .optional =>
        if present p.1 then encoder_append_integer_8 e (values p.1) else e
      | .default_value d =>
        if values p.1 != d then encoder_append_integer_8 e (values p.1) else e)
    e

/-- The per-bit test the generated decode code performs:
`(present_mask[i / 8] & (1 << (7 - i % 8))) == (1 << (7 - i % 8))`. -/
def seq_flag (mask : List Nat) (i : Nat) : Bool :=
  (mask.getD (i / 8) 0 &&& (1 <<< (7 - i % 8))) == (1 <<< (7 - i % 8))

/-- The decode instruction sequence `format_sequence_inner` emits: read the
mask bytes (when any), set each optional member's is-present flag from its
bit, then per member in declaration order: read a mandatory payload
unconditionally, read an optional payload when its flag is set, and for a
default member read when the bit is set or assign the literal default
without reading bytes when it is clear.  `seq_flag_of` is the
`member_name_to_mask` lookup: the bit test associated with the member at
declaration index `j`. -/
def seq_flag_of (optionals : List (Nat × member_kind)) (mask : List Nat)
    (j : Nat) : Bool :=
  match (optionals.enum).find? (fun q => q.2.1 == j) with
  | some q => seq_flag mask q.1
  | none => false

/-- One member of the generated per-member decode phase (see
`oer_seq_decode`). -/
def seq_decode_step (flagOf : Nat → Bool) (st : decoder_t × (Nat → Nat))
    (p : Nat × member_kind) : decoder_t × (Nat → Nat) :=
  match p.2 with
  | .mandatory =>
    ((decoder_read_integer_8 st.1).1,
      Function.update st.2 p.1 (decoder_read_integer_8 st.1).2)
  | .optional =>
    if flagOf p.1 then
      ((decoder_read_integer_8 st.1).1,
        Function.update st.2 p.1 (decoder_read_integer_8 st.1).2)
    else st
  | .default_value dv =>
    if flagOf p.1 then
      ((decoder_read_integer_8 st.1).1,
        Function.update st.2 p.1 (decoder_read_integer_8 st.1).2)
    else (st.1, Function.update st.2 p.1 dv)

def oer_seq_decode (members : List member_kind) (d : decoder_t)
    (values : Nat → Nat) (present : Nat → Bool) :
    decoder_t × (Nat → Nat) × (Nat → Bool) :=
  let optionals := seq_optionals members
  let m := (optionals.length + 7) / 8
  let rm := if 0 < m then decoder_read_bytes d m else (d, [])
  let mask := rm.2
  let present := (optionals.enum).foldl
    (fun pr q =>
      match q.2.2 with
      | .optional => Function.update pr q.2.1 (seq_flag mask q.1)
      | _ => pr)
    present
  let st := (members.enum).foldl (seq_decode_step (seq_flag_of optionals mask))
    (rm.1, values)
  (st.1, st.2, present)

/-- Per-member payload bytes (the body of `seq_payload`). -/
def seq_member_bytes (values : Nat → Nat) (present : Nat → Bool)
    (p : Nat × member_kind) : List Nat :=
  match p.2 with
  | .mandatory => [values p.1 % 2 ^ 8]
  | .optional => if present p.1 then [values p.1 % 2 ^ 8] else []
  | .default_value d => if values p.1 != d then [values p.1 % 2 ^ 8] else []

/-- The presence mask always has `ceil(k / 8)` bytes, where `k` is the
number of optional-or-default members. -/
theorem seq_present_mask_length (members : List member_kind)
    (values : Nat → Nat) (present : Nat → Bool) :
    (seq_present_mask members values present).length =
      (members.countP (fun k => member_in_mask k) + 7) / 8 := by
  have hopt : (seq_optionals members).length =
      members.countP (fun k => member_in_mask k) := by
    rw [seq_optionals, ← List.countP_eq_length_filter]
    have : (fun p : Nat × member_kind => member_in_mask p.2) =
        (fun k => member_in_mask k) ∘ Prod.snd := rfl
    rw [this, ← List.countP_map, List.enum_map_snd]
  rw [seq_present_mask]
  have hfold : ∀ (L : List (Nat × (Nat × member_kind))) (mask : List Nat),
      (L.foldl
        (fun mask q =>
          let cond := match q.2.2 with
            | member_kind.optional => present q.2.1
            | member_kind.default_value d => values q.2.1 != d
            | member_kind.mandatory => false
          if cond then
            mask.set (q.1 / 8) (mask.getD (q.1 / 8) 0 ||| (1 <<< (7 - q.1 % 8)))
          else mask)
        mask).length = mask.length := by
    intro L
    induction L with
    | nil => intro mask; rfl
    | cons q L ih =>
      intro mask
      rw [List.foldl_cons, ih]
      rcases q with ⟨i, j, k⟩
      cases k with
      | mandatory => simp
      | optional => by_cases hp : present j <;> simp [hp]
      | default_value d => by_cases hd : values j != d <;> simp [hd]
  rw [hfold, List.length_replicate, hopt]

theorem seq_payload_eq (members : List member_kind) (values : Nat → Nat)
    (present : Nat → Bool) :
    seq_payload members values present =
      (members.enum.map (seq_member_bytes values present)).join := rfl

/-- One generated member-encode step appends exactly its payload bytes. -/
theorem seq_encode_step_ok (values : Nat → Nat) (present : Nat → Bool)
    (p : Nat × member_kind) (e : encoder_t) (h0 : 0 ≤ e.pos)
    (hcap : e.pos + ((seq_member_bytes values present p).length : Int) ≤
      e.size) :
    (match p.2 with
      | member_kind.mandatory => encoder_append_integer_8 e (values p.1)
      | member_kind.optional =>
        if present p.1 then encoder_append_integer_8 e (values p.1) else e
      | member_kind.default_value d =>
        if values p.1 != d then encoder_append_integer_8 e (values p.1)
        else e) =
      ⟨e.buf ++ seq_member_bytes values present p, e.size,
        e.pos + ((seq_member_bytes values present p).length : Int)⟩ := by
  obtain ⟨i, k⟩ := p
  cases k with
  | mandatory =>
    rw [encoder_append_integer_8_ok e _ h0
      (by simpa [seq_member_bytes] using hcap)]
    simp [seq_member_bytes]
  | optional =>
    by_cases hp : present i
    · simp only [hp, if_true]
      rw [encoder_append_integer_8_ok e _ h0
        (by simpa [seq_member_bytes, hp] using hcap)]
      simp [seq_member_bytes, hp]
    · obtain ⟨b, s, q⟩ := e
      simp [seq_member_bytes, hp]
  | default_value d =>
    by_cases hd : values i != d
    · simp only [hd, if_true]
      rw [encoder_append_integer_8_ok e _ h0
        (by simpa [seq_member_bytes, hd] using hcap)]
      simp [seq_member_bytes, hd]
    · obtain ⟨b, s, q⟩ := e
      simp only [Bool.not_eq_true] at hd
      simp [seq_member_bytes, hd]

/-- The generated sequence encoder writes the presence mask first, then the
member payloads in declaration order. -/
theorem oer_seq_encode_buf (members : List member_kind) (values : Nat → Nat)
    (present : Nat → Bool) :
    (oer_seq_encode members values present
        ⟨[], (((seq_present_mask members values present).length +
            (seq_payload members values present).length : Nat) : Int), 0⟩).buf =
      seq_present_mask members values present ++
        seq_payload members values present := by
  rw [oer_seq_encode]
  by_cases hm : 0 < (seq_present_mask members values present).length
  · rw [if_pos hm,
      encoder_append_bytes_ok _ _ (by norm_num) (by push_cast; omega)]
    rw [foldl_encoder_append _ (seq_member_bytes values present)
      (fun a e h0 hcap => seq_encode_step_ok values present a e h0 hcap)
      members.enum _
      (by
        show (0 : Int) ≤ 0 + ((seq_present_mask members values present).length : Int)
        positivity)
      (by
        show (0 : Int) + ((seq_present_mask members values present).length : Int) +
            ((members.enum.map (seq_member_bytes values present)).join.length : Int) ≤
          (((seq_present_mask members values present).length +
            (seq_payload members values present).length : Nat) : Int)
        rw [← seq_payload_eq]
        push_cast
        omega)]
    rw [← seq_payload_eq]
    simp
  · rw [if_neg hm]
    rw [foldl_encoder_append _ (seq_member_bytes values present)
      (fun a e h0 hcap => seq_encode_step_ok values present a e h0 hcap)
      members.enum _ (by norm_num)
      (by
        show (0 : Int) +
            ((members.enum.map (seq_member_bytes values present)).join.length : Int) ≤
          (((seq_present_mask members values present).length +
            (seq_payload members values present).length : Nat) : Int)
        rw [← seq_payload_eq]
        push_cast
        omega)]
    have hnil : seq_present_mask members values present = [] :=
      List.eq_nil_of_length_eq_zero (by omega)
    rw [← seq_payload_eq]
    simp [hnil]

/-- Claim C7: for a sequence whose k members are optional or defaulted, the
generated code emits a leading presence bitmask of `ceil(k/8)` bytes, one bit
per such member, most-significant-bit first within each byte in declaration
order (member i uses bit `1 << (7 - i % 8)` of byte `i / 8`); for an optional
member the bit means present and the decoder sets the is-present flag from
it; for a default member the bit means the value differs from the default
and, when clear on decode, the field is assigned the literal default without
reading bytes; all other members are coded unconditionally in declaration
order after the mask.  In particular two optional one-byte integers with the
first absent and the second present with value 7 encode to `[0x40, 0x07]`. -/
theorem seq_presence_bitmask_codec :
    (∀ (members : List member_kind) (values : Nat → Nat)
        (present : Nat → Bool),
      (seq_present_mask members values present).length =
        (members.countP (fun k => member_in_mask k) + 7) / 8) ∧
    (∀ (members : List member_kind) (values : Nat → Nat)
        (present : Nat → Bool),
      (oer_seq_encode members values present
          ⟨[], (((seq_present_mask members values present).length +
              (seq_payload members values present).length : Nat) : Int),
            0⟩).buf =
        seq_present_mask members values present ++
          seq_payload members values present) ∧
    (∀ i, i < 9 →
      seq_present_mask (List.replicate 9 member_kind.optional) (fun _ => 0)
          (fun j => j == i) =
        [if i < 8 then 1 <<< (7 - i) else 0, if i = 8 then 128 else 0]) ∧
    ((oer_seq_encode [member_kind.optional, member_kind.optional]
        (fun j => if j = 1 then 7 else 0) (fun j => j == 1) ⟨[], 2, 0⟩).buf =
      [0x40, 0x07]) ∧
    ((oer_seq_decode [member_kind.optional, member_kind.optional]
        ⟨[0x40, 0x07], 2, 0⟩ (fun _ => 0) (fun _ => true)).1 =
        ⟨[0x40, 0x07], 2, 2⟩ ∧
      (oer_seq_decode [member_kind.optional, member_kind.optional]
        ⟨[0x40, 0x07], 2, 0⟩ (fun _ => 0) (fun _ => true)).2.2 0 = false ∧
      (oer_seq_decode [member_kind.optional, member_kind.optional]
        ⟨[0x40, 0x07], 2, 0⟩ (fun _ => 0) (fun _ => true)).2.2 1 = true ∧
      (oer_seq_decode [member_kind.optional, member_kind.optional]
        ⟨[0x40, 0x07], 2, 0⟩ (fun _ => 0) (fun _ => true)).2.1 1 = 7) ∧
    ((oer_seq_encode [member_kind.default_value 5] (fun _ => 5) (fun _ => false)
        ⟨[], 1, 0⟩).buf = [0x00] ∧
      (oer_seq_encode [member_kind.default_value 5] (fun _ => 9)
        (fun _ => false) ⟨[], 2, 0⟩).buf = [0x80, 0x09] ∧
      (oer_seq_decode [member_kind.default_value 5] ⟨[0x00], 1, 0⟩ (fun _ => 0)
        (fun _ => false)).2.1 0 = 5 ∧
      (oer_seq_decode [member_kind.default_value 5] ⟨[0x00], 1, 0⟩ (fun _ => 0)
        (fun _ => false)).1.pos = 1 ∧
      (oer_seq_decode [member_kind.default_value 5] ⟨[0x80, 0x09], 2, 0⟩
        (fun _ => 0) (fun _ => false)).2.1 0 = 9 ∧
      (oer_seq_decode [member_kind.default_value 5] ⟨[0x80, 0x09], 2, 0⟩
        (fun _ => 0) (fun _ => false)).1.pos = 2) := by
  refine ⟨seq_present_mask_length, oer_seq_encode_buf, by decide, by decide,
    ⟨by decide, by decide, by decide, by decide⟩,
    ⟨by decide, by decide, by decide, by decide, by decide, by decide⟩⟩

/-- Witness for `seq_presence_bitmask_codec`, discharging the bounded bit
layout hypothesis at member index 2. -/
theorem seq_presence_bitmask_codec_witness :
    seq_present_mask (List.replicate 9 member_kind.optional) (fun _ => 0)
        (fun j => j == 2) =
      [if 2 < 8 then 1 <<< (7 - 2) else 0, if 2 = 8 then 128 else 0] :=
  seq_presence_bitmask_codec.2.2.1 2 (by decide)

/-! ### Claim C2: generation-time failures on unsupported schema shapes -/

/-- The message of the `Error` raised by `format_real`. -/
def REAL_FMT_ERROR : String := "REAL not IEEE 754 binary32 or binary64."

/-- The message of the `NotImplementedError` raised by
`format_choice_inner` for a multi-byte tag. -/
def CHOICE_TAG_ERROR : String :=
  "CHOICE tags of more than one byte are not yet supported."

/-- `_Generator.format_real`: a `REAL` whose pre-resolved format is neither
IEEE 754 binary32 (`>f`) nor binary64 has `fmt is None` and raises a labeled
`Error`; otherwise the C type is `float` for `>f` and `double` otherwise. -/
def format_real (fmt : Option String) : Except String (List String) :=
  match fmt with
  | none => Except.error REAL_FMT_ERROR
  | some f => Except.ok [if f = ">f" then "float" else "double"]

/-- The `oer.Real` case of `generate_type_declaration`: the member formatting
runs under `try ... except Error: return []`, so an unsupported real format
produces no output at all for the type (the caller `generate` skips a type
with an empty declaration).  On success ` value;` is appended to the member
line; the surrounding `TYPE_DECLARATION_FMT` template lives in
`c_source/utils.py` and is not modelled (only whether any output is produced
matters here). -/
def generate_type_declaration_real (fmt : Option String) : List String :=
  match format_real fmt with
  | Except.error _ => []
  | Except.ok lines => [(lines.getD 0 "") ++ " value;"]

/-- A choice alternative as `format_choice_inner` sees it: its tag bytes. -/
structure choice_member where
  tag : List Nat
deriving DecidableEq

/-- The tag validation loop of `format_choice_inner`: alternatives are
processed in declaration order; one whose `member.tag` is not exactly one
byte raises `NotImplementedError` (modelled as `Except.error`), producing no
output lines; otherwise `struct.unpack` extracts the single tag byte. -/
def format_choice_inner_tags : List choice_member → Except String (List Nat)
  | [] => Except.ok []
  | m :: ms =>
    if m.tag.length ≠ 1 then Except.error CHOICE_TAG_ERROR
    else
      match format_choice_inner_tags ms with
      | Except.error e => Except.error e
      | Except.ok rest => Except.ok (m.tag.getD 0 0 :: rest)

/-- Claim C2: a `REAL` that is not IEEE-754 binary32/binary64 aborts
generation for the type with the labeled format error and the type yields no
(partial) declaration output; a choice with any alternative whose tag is
longer than one byte aborts with the labeled tag error and yields no output
lines for the choice. -/
theorem generation_time_unsupported_errors :
    format_real none = Except.error REAL_FMT_ERROR ∧
    generate_type_declaration_real none = [] ∧
    (∀ (members : List choice_member), (∃ m ∈ members, m.tag.length ≠ 1) →
      format_choice_inner_tags members = Except.error CHOICE_TAG_ERROR) := by
  refine ⟨rfl, rfl, ?_⟩
  intro members
  induction members with
  | nil =>
    rintro ⟨m, hm, _⟩
    cases hm
  | cons m ms ih =>
    rintro ⟨m0, hm0, hbad⟩
    simp only [format_choice_inner_tags]
    by_cases h : m.tag.length ≠ 1
    · rw [if_pos h]
    · rw [if_neg h]
      have hms : ∃ x ∈ ms, x.tag.length ≠ 1 := by
        rcases List.mem_cons.mp hm0 with rfl | hmem
        · exact absurd hbad h
        · exact ⟨m0, hmem, hbad⟩
      rw [ih hms]

/-- Witness for `generation_time_unsupported_errors` at a choice with one
two-byte-tag alternative. -/
theorem generation_time_unsupported_errors_witness :
    format_choice_inner_tags [⟨[0x5f, 0x21]⟩] =
      Except.error CHOICE_TAG_ERROR :=
  generation_time_unsupported_errors.2.2 [⟨[0x5f, 0x21]⟩]
    ⟨⟨[0x5f, 0x21]⟩, by decide, by decide⟩

/-! ### Claim C3: selection of runtime helper primitives -/

/-- Substring occurrence over character lists (the semantics of the Python
`pattern in definitions` test in `generate_helpers`). -/
def occursInChars (pattern : List Char) : List Char → Bool
  | [] => pattern.isEmpty
  | c :: rest => pattern.isPrefixOf (c :: rest) || occursInChars pattern rest

/-- Substring occurrence on strings. -/
def occurs_in (pattern text : String) : Bool :=
  occursInChars pattern.data text.data

/-- One catalog entry of `generate_helpers`: the name of the C function a
helper block defines, the trigger pattern searched for in the generated
definitions text, and the catalog functions the helper body itself calls
(read off the embedded C string constants). -/
structure helper_t where
  fname : String
  trigger : String
  calls : List String
deriving DecidableEq

/-- The `functions` table of `generate_helpers`, in source order: pairs of
trigger pattern and helper block.  `ENCODER_ALLOC` is keyed on the
`encoder_append_bytes(` pattern (not on its own name), and `DECODER_FREE` on
`decoder_read_bytes(`; every other entry is keyed on the name of the
function it defines.  The `calls` lists are transcribed from the C bodies:
e.g. `ENCODER_APPEND_LENGTH_DETERMINANT` calls `encoder_append_integer_8`,
`encoder_append_integer_16` and `encoder_append_integer_32`. -/
def helper_functions : List helper_t := [
  ⟨"encoder_init", "encoder_init(", []⟩,
  ⟨"encoder_get_result", "encoder_get_result(", []⟩,
  ⟨"encoder_abort", "encoder_abort(", []⟩,
  ⟨"encoder_alloc", "encoder_append_bytes(", ["encoder_abort"]⟩,
  ⟨"encoder_append_bytes", "encoder_append_bytes(", ["encoder_alloc"]⟩,
  ⟨"encoder_append_integer_8", "encoder_append_integer_8(",
    ["encoder_append_bytes"]⟩,
  ⟨"encoder_append_integer_16", "encoder_append_integer_16(",
    ["encoder_append_bytes"]⟩,
  ⟨"encoder_append_integer_32", "encoder_append_integer_32(",
    ["encoder_append_bytes"]⟩,
  ⟨"encoder_append_integer_64", "encoder_append_integer_64(",
    ["encoder_append_bytes"]⟩,
  ⟨"encoder_append_integer", "encoder_append_integer(",
    ["encoder_append_integer_8", "encoder_append_integer_16",
      "encoder_append_integer_32"]⟩,
  ⟨"encoder_append_float", "encoder_append_float(",
    ["encoder_append_integer_32"]⟩,
  ⟨"encoder_append_double", "encoder_append_double(",
    ["encoder_append_integer_64"]⟩,
  ⟨"encoder_append_bool", "encoder_append_bool(",
    ["encoder_append_integer_8"]⟩,
  ⟨"encoder_append_length_determinant", "encoder_append_length_determinant(",
    ["encoder_append_integer_8", "encoder_append_integer_16",
      "encoder_append_integer_32"]⟩,
  ⟨"decoder_init", "decoder_init(", []⟩,
  ⟨"decoder_get_result", "decoder_get_result(", []⟩,
  ⟨"decoder_abort", "decoder_abort(", []⟩,
  ⟨"decoder_free", "decoder_read_bytes(", ["decoder_abort"]⟩,
  ⟨"decoder_read_bytes", "decoder_read_bytes(", ["decoder_free"]⟩,
  ⟨"decoder_read_integer_8", "decoder_read_integer_8(",
    ["decoder_read_bytes"]⟩,
  ⟨"decoder_read_integer_16", "decoder_read_integer_16(",
    ["decoder_read_bytes"]⟩,
  ⟨"decoder_read_integer_32", "decoder_read_integer_32(",
    ["decoder_read_bytes"]⟩,
  ⟨"decoder_read_integer_64", "decoder_read_integer_64(",
    ["decoder_read_bytes"]⟩,
  ⟨"decoder_read_integer", "decoder_read_integer(",
    ["decoder_read_integer_8", "decoder_read_integer_16",
      "decoder_read_integer_32"]⟩,
  ⟨"decoder_read_float", "decoder_read_float(", ["decoder_read_integer_32"]⟩,
  ⟨"decoder_read_double", "decoder_read_double(",
    ["decoder_read_integer_64"]⟩,
  ⟨"decoder_read_bool", "decoder_read_bool(", ["decoder_read_integer_8"]⟩,
  ⟨"decoder_read_length_determinant", "decoder_read_length_determinant(",
    ["decoder_read_integer_8", "decoder_read_integer_16",
      "decoder_read_integer_32"]⟩]

/-- The name standing for the unconditional `ENCODER_AND_DECODER_STRUCTS`
block that `generate_helpers` always emits first. -/
def STRUCTS_NAME : String := "encoder_and_decoder_structs"

/-- `_Generator.generate_helpers`: the structs block, then every catalog
entry whose trigger pattern occurs in the concatenated definitions text, in
table order. -/
def generate_helpers (definitions : String) : List String :=
  STRUCTS_NAME ::
    (helper_functions.filter (fun h => occurs_in h.trigger definitions)).map
      (fun h => h.fname)

/-- The dependency-closure property claim C3 asserts of the selected set:
every catalog function called by an included helper is itself included. -/
def helpers_closed (definitions : String) : Prop :=
  ∀ h ∈ helper_functions, occurs_in h.trigger definitions = true →
    ∀ c ∈ h.calls, c ∈ generate_helpers definitions

instance (definitions : String) : Decidable (helpers_closed definitions) := by
  unfold helpers_closed
  infer_instance

/-- A generated-definitions text that references only the length-determinant
append primitive. -/
def defs_only_length_determinant : String :=
  "    encoder_append_length_determinant(encoder_p, src_p->length);"

/-- Membership in the assembled helper list: the structs block, or a catalog
entry whose trigger pattern occurs in the definitions text. -/
theorem mem_generate_helpers_iff (definitions name : String) :
    name ∈ generate_helpers definitions ↔
      name = STRUCTS_NAME ∨
        ∃ h ∈ helper_functions, h.fname = name ∧
          occurs_in h.trigger definitions = true := by
  simp only [generate_helpers, List.mem_cons, List.mem_map, List.mem_filter]
  constructor
  · rintro (rfl | ⟨h, ⟨hm, ho⟩, hf⟩)
    · exact Or.inl rfl
    · exact Or.inr ⟨h, hm, hf, ho⟩
  · rintro (rfl | ⟨h, hm, hf, ho⟩)
    · exact Or.inl rfl
    · exact Or.inr ⟨h, ⟨hm, ho⟩, hf⟩

/-- Counterexample to claim C3 as stated: a definitions text referencing
only `encoder_append_length_determinant(` selects exactly the structs block
and the length-determinant helper, although that helper's own body calls
`encoder_append_integer_8` (and the 16- and 32-bit appends), none of which
are selected — the selected set is not closed under the helpers' own
dependencies. -/
theorem helpers_not_dependency_closed_counterexample :
    generate_helpers defs_only_length_determinant =
      [STRUCTS_NAME, "encoder_append_length_determinant"] ∧
    ¬ helpers_closed defs_only_length_determinant := by
  constructor
  · decide
  · decide

/-- Claim C3 (amended): the assembled helper block contains the structs
block plus exactly those catalog primitives whose trigger pattern occurs in
the concatenated definitions text; the allocator is included whenever the
byte append is (they share the `encoder_append_bytes(` trigger), and the
free primitive whenever the byte read is, but the selection is not otherwise
closed under the included primitives' own dependencies. -/
theorem helpers_selection_characterization :
    (∀ (definitions name : String),
      name ∈ generate_helpers definitions ↔
        name = STRUCTS_NAME ∨
          ∃ h ∈ helper_functions, h.fname = name ∧
            occurs_in h.trigger definitions = true) ∧
    (∀ definitions : String,
      "encoder_append_bytes" ∈ generate_helpers definitions →
        "encoder_alloc" ∈ generate_helpers definitions) ∧
    (∀ definitions : String,
      "decoder_read_bytes" ∈ generate_helpers definitions →
        "decoder_free" ∈ generate_helpers definitions) := by
  refine ⟨mem_generate_helpers_iff, ?_, ?_⟩
  · intro definitions hmem
    rcases (mem_generate_helpers_iff definitions _).mp hmem with heq | ⟨h, hm, hf, ho⟩
    · exact absurd heq (by decide)
    · have htrig : h.trigger = "encoder_append_bytes(" := by
        revert hf
        have : ∀ x ∈ helper_functions, x.fname = "encoder_append_bytes" →
            x.trigger = "encoder_append_bytes(" := by decide
        exact this h hm
      exact (mem_generate_helpers_iff definitions _).mpr
        (Or.inr ⟨⟨"encoder_alloc", "encoder_append_bytes(",
            ["encoder_abort"]⟩, by decide, rfl, by rw [← htrig]; exact ho⟩)
  · intro definitions hmem
    rcases (mem_generate_helpers_iff definitions _).mp hmem with heq | ⟨h, hm, hf, ho⟩
    · exact absurd heq (by decide)
    · have htrig : h.trigger = "decoder_read_bytes(" := by
        revert hf
        have : ∀ x ∈ helper_functions, x.fname = "decoder_read_bytes" →
            x.trigger = "decoder_read_bytes(" := by decide
        exact this h hm
      exact (mem_generate_helpers_iff definitions _).mpr
        (Or.inr ⟨⟨"decoder_free", "decoder_read_bytes(",
            ["decoder_abort"]⟩, by decide, rfl, by rw [← htrig]; exact ho⟩)

/-- Witness for `helpers_selection_characterization` at a definitions text
that calls `encoder_append_bytes` and `decoder_read_bytes`. -/
theorem helpers_selection_characterization_witness :
    ("encoder_append_bytes" ∈
        generate_helpers "encoder_append_bytes(x); decoder_read_bytes(y);" ↔
      "encoder_append_bytes" = STRUCTS_NAME ∨
        ∃ h ∈ helper_functions, h.fname = "encoder_append_bytes" ∧
          occurs_in h.trigger
            "encoder_append_bytes(x); decoder_read_bytes(y);" = true) ∧
    "encoder_alloc" ∈
      generate_helpers "encoder_append_bytes(x); decoder_read_bytes(y);" ∧
    "decoder_free" ∈
      generate_helpers "encoder_append_bytes(x); decoder_read_bytes(y);" :=
  ⟨helpers_selection_characterization.1
      "encoder_append_bytes(x); decoder_read_bytes(y);" "encoder_append_bytes",
    helpers_selection_characterization.2.1
      "encoder_append_bytes(x); decoder_read_bytes(y);" (by decide),
    helpers_selection_characterization.2.2
      "encoder_append_bytes(x); decoder_read_bytes(y);" (by decide)⟩

/-! ### Claim C4: `sort_user_types_by_used_user_types` -/

/-- An emitted user type as the sorter sees it: its name, its module, and
the name/module pairs of the user types it references. -/
structure UserType where
  type_name : String
  module_name : String
  used_user_types : List (String × String)
deriving DecidableEq

/-- The `(user_type.type_name, user_type.module_name)` tuple. -/
def UserType.key (u : UserType) : String × String := (u.type_name, u.module_name)

/-- Python `list.insert` semantics: insert before index `n`, appending when
`n` is past the end. -/
def insertAt {α : Type} : Nat → α → List α → List α
  | 0, a, l => a :: l
  | _ + 1, a, [] => [a]
  | n + 1, a, x :: xs => x :: insertAt n a xs

/-- The `insert_index` computation of `sort_user_types_by_used_user_types`:
enumerate the already-placed list from 1 and keep the largest index of an
entry whose `used_user_types` contains the new type's key. -/
def insert_index (key : String × String) (l : List UserType) : Nat :=
  (l.foldl
    (fun (p : Nat × Nat) rst =>
      (p.1 + 1,
        if key ∈ rst.used_user_types ∧ p.2 < p.1 + 1 then p.1 + 1 else p.2))
    (0, 0)).2

/-- The insertion loop of `sort_user_types_by_used_user_types`, building
`reversed_sorted_user_types`. -/
def sort_user_types_loop (acc : List UserType) :
    List UserType → List UserType
  | [] => acc
  | u :: us => sort_user_types_loop (insertAt (insert_index u.key acc) u acc) us

/-- `sort_user_types_by_used_user_types`: run the insertion loop over the
input, then reverse (`return reversed(reversed_sorted_user_types)`). -/
def sort_user_types_by_used_user_types (user_types : List UserType) :
    List UserType :=
  (sort_user_types_loop [] user_types).reverse

theorem insertAt_eq {α : Type} (a : α) :
    ∀ (n : Nat) (l : List α), n ≤ l.length →
      insertAt n a l = l.take n ++ a :: l.drop n
  | 0, l, _ => rfl
  | n + 1, [], h => by simp at h
  | n + 1, x :: xs, h => by
    rw [insertAt, insertAt_eq a n xs (by simpa using h)]
    simp

open List in
theorem insertAt_perm {α : Type} (a : α) :
    ∀ (n : Nat) (l : List α), List.Perm (insertAt n a l) (a :: l)
  | 0, _ => List.Perm.refl _
  | _ + 1, [] => List.Perm.refl _
  | n + 1, x :: xs =>
    ((insertAt_perm a n xs).cons x).trans (List.Perm.swap a x xs)

theorem sublist_insertAt {α : Type} (a : α) :
    ∀ (n : Nat) (l : List α), List.Sublist l (insertAt n a l)
  | 0, l => List.sublist_cons_self a l
  | _ + 1, [] => List.nil_sublist _
  | n + 1, x :: xs => (sublist_insertAt a n xs).cons₂ x

theorem sort_user_types_loop_perm :
    ∀ (rest acc : List UserType),
      List.Perm (sort_user_types_loop acc rest) (rest ++ acc)
  | [], acc => by rw [sort_user_types_loop]; exact List.Perm.refl acc
  | u :: us, acc => by
    rw [sort_user_types_loop]
    refine (sort_user_types_loop_perm us _).trans ?_
    refine List.Perm.trans ?_ List.perm_middle
    exact (insertAt_perm u (insert_index u.key acc) acc).append_left us

/-- The second component of the `insert_index` fold only ever grows. -/
theorem insert_index_fold_mono (key : String × String) :
    ∀ (l : List UserType) (c b : Nat),
      b ≤ (l.foldl
        (fun (p : Nat × Nat) rst =>
          (p.1 + 1,
            if key ∈ rst.used_user_types ∧ p.2 < p.1 + 1 then p.1 + 1
            else p.2))
        (c, b)).2
  | [], c, b => Nat.le_refl b
  | rst :: l, c, b => by
    rw [List.foldl_cons]
    dsimp only
    refine Nat.le_trans ?_ (insert_index_fold_mono key l (c + 1) _)
    split
    · omega
    · exact Nat.le_refl b

/-- Any already-placed entry whose reference set contains the key forces the
insertion index past it. -/
theorem insert_index_fold_ge (key : String × String) :
    ∀ (l : List UserType) (c b i : Nat) (hi : i < l.length),
      key ∈ (l.get ⟨i, hi⟩).used_user_types →
      c + i + 1 ≤ (l.foldl
        (fun (p : Nat × Nat) rst =>
          (p.1 + 1,
            if key ∈ rst.used_user_types ∧ p.2 < p.1 + 1 then p.1 + 1
            else p.2))
        (c, b)).2
  | [], _, _, i, hi, _ => absurd hi (by simp)
  | rst :: l, c, b, 0, hi, hk => by
    rw [List.foldl_cons]
    dsimp only
    have hb : c + 1 ≤ (if key ∈ rst.used_user_types ∧ b < c + 1 then c + 1
        else b) := by
      simp only [List.get] at hk
      split
      · omega
      · rename_i hcond
        push_neg at hcond
        exact hcond hk
    have := insert_index_fold_mono key l (c + 1)
      (if key ∈ rst.used_user_types ∧ b < c + 1 then c + 1 else b)
    omega
  | rst :: l, c, b, i + 1, hi, hk => by
    rw [List.foldl_cons]
    dsimp only
    have := insert_index_fold_ge key l (c + 1)
      (if key ∈ rst.used_user_types ∧ b < c + 1 then c + 1 else b) i
      (by simpa using Nat.lt_of_succ_lt_succ hi)
      (by simpa [List.get] using hk)
    omega

/-- The insertion index never exceeds the list length. -/
theorem insert_index_fold_le (key : String × String) :
    ∀ (l : List UserType) (c b : Nat), b ≤ c →
      (l.foldl
        (fun (p : Nat × Nat) rst =>
          (p.1 + 1,
            if key ∈ rst.used_user_types ∧ p.2 < p.1 + 1 then p.1 + 1
            else p.2))
        (c, b)).2 ≤ c + l.length
  | [], c, b, hb => by simpa using hb
  | rst :: l, c, b, hb => by
    rw [List.foldl_cons]
    dsimp only
    have := insert_index_fold_le key l (c + 1)
      (if key ∈ rst.used_user_types ∧ b < c + 1 then c + 1 else b)
      (by split <;> omega)
    simp only [List.length_cons]
    omega

theorem insert_index_le (key : String × String) (l : List UserType) :
    insert_index key l ≤ l.length := by
  have := insert_index_fold_le key l 0 0 (Nat.le_refl 0)
  simpa [insert_index] using this

theorem insert_index_ge (key : String × String) (l : List UserType) (i : Nat)
    (hi : i < l.length) (hk : key ∈ (l.get ⟨i, hi⟩).used_user_types) :
    i + 1 ≤ insert_index key l := by
  have := insert_index_fold_ge key l 0 0 i hi hk
  simpa [insert_index] using this

/-- Inserting `u` at an index beyond position `i` keeps the element at `i`
before `u`. -/
theorem pair_sublist_insertAt (v u : UserType) (acc : List UserType) (i : Nat)
    (hi : i < acc.length) (hv : acc.get ⟨i, hi⟩ = v) (k : Nat) (hik : i < k)
    (hk : k ≤ acc.length) :
    List.Sublist [v, u] (insertAt k u acc) := by
  rw [insertAt_eq u k acc hk]
  have hlen : i < (acc.take k).length := by
    simp only [List.length_take]
    omega
  have hvmem : v ∈ acc.take k := by
    rw [List.mem_iff_getElem]
    exact ⟨i, hlen, by rw [List.getElem_take]; exact hv⟩
  exact List.Sublist.append (List.singleton_sublist.mpr hvmem)
    ((List.nil_sublist _).cons₂ u)

/-- Invariant of the insertion loop: a pair ordered `v` before `u` in the
remaining input, or split with `v` already placed, or already ordered in the
accumulator, ends up ordered `v` before `u` in the final reversed-order
list, whenever `v` references `u`. -/
theorem sort_loop_pair (v u : UserType) (hvu : u.key ∈ v.used_user_types) :
    ∀ (rest acc : List UserType),
      (List.Sublist [v, u] rest ∨ (v ∈ acc ∧ u ∈ rest) ∨
        List.Sublist [v, u] acc) →
      List.Sublist [v, u] (sort_user_types_loop acc rest)
  | [], acc, h => by
    rw [sort_user_types_loop]
    rcases h with hsub | ⟨hv, hu⟩ | hacc
    · exact absurd hsub.length_le (by simp)
    · exact absurd hu (List.not_mem_nil u)
    · exact hacc
  | w :: ws, acc, h => by
    rw [sort_user_types_loop]
    rcases h with hsub | ⟨hv, hu⟩ | hacc
    · cases hsub with
      | cons _ h' => exact sort_loop_pair v u hvu ws _ (Or.inl h')
      | cons₂ _ h' =>
        refine sort_loop_pair v u hvu ws _ (Or.inr (Or.inl ⟨?_, ?_⟩))
        · exact ((insertAt_perm v (insert_index v.key acc) acc).mem_iff).mpr
            (List.mem_cons_self v acc)
        · exact List.singleton_sublist.mp h'
    · by_cases hw : u = w
      · subst hw
        obtain ⟨⟨i, hi⟩, hveq⟩ := List.mem_iff_get.mp hv
        have hk := insert_index_ge u.key acc i hi (by rw [hveq]; exact hvu)
        have hkle := insert_index_le u.key acc
        exact sort_loop_pair v u hvu ws _ (Or.inr (Or.inr
          (pair_sublist_insertAt v u acc i hi hveq _ (by omega) hkle)))
      · have hu' : u ∈ ws := by
          rcases List.mem_cons.mp hu with h1 | h1
          · exact absurd h1 hw
          · exact h1
        have hv' : v ∈ insertAt (insert_index w.key acc) w acc :=
          (sublist_insertAt w _ acc).subset hv
        exact sort_loop_pair v u hvu ws _ (Or.inr (Or.inl ⟨hv', hu'⟩))
    · exact sort_loop_pair v u hvu ws _
        (Or.inr (Or.inr (hacc.trans (sublist_insertAt w _ acc))))

/-- A four-type input whose reference edges form the chain
`ex_w → ex_u → ex_a → ex_b` (each uses the next), a DAG. -/
def ex_w : UserType := ⟨"T1", "M", [("T3", "M")]⟩

/-- Second type of the chain example: referenced by `ex_a`, uses nothing. -/
def ex_b : UserType := ⟨"T2", "M", []⟩

/-- Third type of the chain example: used by `ex_w`, uses `ex_a`. -/
def ex_u : UserType := ⟨"T3", "M", [("T4", "M")]⟩

/-- Fourth type of the chain example: used by `ex_u`, uses `ex_b`. -/
def ex_a : UserType := ⟨"T4", "M", [("T2", "M")]⟩

/-- Counterexample to claim C4 as stated: on the DAG input
`[ex_w, ex_b, ex_u, ex_a]` (reference edges `ex_w → ex_u → ex_a → ex_b`),
the sorter returns `[ex_a, ex_u, ex_w, ex_b]`, in which `ex_a` appears
strictly *before* the type `ex_b` it references. -/
theorem sort_user_types_counterexample :
    sort_user_types_by_used_user_types [ex_w, ex_b, ex_u, ex_a] =
      [ex_a, ex_u, ex_w, ex_b] ∧
    ex_b.key ∈ ex_a.used_user_types := by
  constructor
  · decide
  · decide

/-- Claim C4 (amended): the sorter returns a permutation of its input, and
whenever a referencing type precedes the type it references in the input
list, the output places the referenced type strictly before the referencing
one.  (For DAG inputs in which a referencing type *follows* its referenced
type in the input, the topological guarantee can fail — see the four-type
counterexample.) -/
theorem sort_user_types_order_guarantee :
    (∀ l : List UserType,
      List.Perm (sort_user_types_by_used_user_types l) l) ∧
    (∀ (l : List UserType) (v u : UserType), u.key ∈ v.used_user_types →
      List.Sublist [v, u] l →
      List.Sublist [u, v] (sort_user_types_by_used_user_types l)) := by
  constructor
  · intro l
    rw [sort_user_types_by_used_user_types]
    have hperm := sort_user_types_loop_perm l []
    rw [List.append_nil] at hperm
    exact (List.reverse_perm _).trans hperm
  · intro l v u hvu hsub
    rw [sort_user_types_by_used_user_types]
    have h := (sort_loop_pair v u hvu l [] (Or.inl hsub)).reverse
    simpa using h

/-- Witness for `sort_user_types_order_guarantee` at the Inner/Outer
schema of the spec: `Outer` references `Inner` and precedes it in the input,
and the output emits `Inner` strictly before `Outer`. -/
theorem sort_user_types_order_guarantee_witness :
    List.Perm
      (sort_user_types_by_used_user_types
        [⟨"Outer", "M", [("Inner", "M")]⟩, ⟨"Inner", "M", []⟩])
      [⟨"Outer", "M", [("Inner", "M")]⟩, ⟨"Inner", "M", []⟩] ∧
    List.Sublist [⟨"Inner", "M", []⟩, ⟨"Outer", "M", [("Inner", "M")]⟩]
      (sort_user_types_by_used_user_types
        [⟨"Outer", "M", [("Inner", "M")]⟩, ⟨"Inner", "M", []⟩]) :=
  ⟨sort_user_types_order_guarantee.1
      [⟨"Outer", "M", [("Inner", "M")]⟩, ⟨"Inner", "M", []⟩],
    sort_user_types_order_guarantee.2
      [⟨"Outer", "M", [("Inner", "M")]⟩, ⟨"Inner", "M", []⟩]
      ⟨"Outer", "M", [("Inner", "M")]⟩ ⟨"Inner", "M", []⟩ (by decide)
      (by decide)⟩
